import Mathlib

set_option maxHeartbeats 1000000
set_option maxRecDepth 100000

/-!
Shallow embedding of the DNS wire codec implemented in src/index.js of the
mini-dns repository.

Conventions of the embedding:
- byte buffers (Node `Buffer`) are `List Nat` of byte values;
- JavaScript strings are `List Nat` of UTF-16 code units, except the header
  flag sub-fields, which the source manipulates as binary-digit strings and
  which are modelled as `List Char`;
- the only run-time failure the source can produce is the ERR_OUT_OF_RANGE
  `RangeError` thrown by Node's bounds-checked `Buffer` reads and writes
  (`readUInt8`, `readUInt16BE`, `readUInt32BE`, `writeUInt8`,
  `writeUInt16BE`, `writeUInt32BE`); it is modelled by
  `NodeError.outOfRange`.  The source defines no error classes of its own.
-/

/-- Single failure kind of the source: Node's ERR_OUT_OF_RANGE RangeError,
thrown by bounds-checked Buffer reads and writes. -/
inductive NodeError where
  | outOfRange
  deriving DecidableEq

instance {ε α : Type} [DecidableEq ε] [DecidableEq α] : DecidableEq (Except ε α)
  | .ok a, .ok b =>
    if h : a = b then isTrue (congrArg Except.ok h)
    else isFalse (fun hh => h (Except.ok.inj hh))
  | .ok _, .error _ => isFalse (fun hh => Except.noConfusion hh)
  | .error _, .ok _ => isFalse (fun hh => Except.noConfusion hh)
  | .error e, .error f =>
    if h : e = f then isTrue (congrArg Except.error h)
    else isFalse (fun hh => h (Except.error.inj hh))

/-- JavaScript `buf.slice(a, b)` for nonnegative indices: clamps to the
buffer bounds and never throws. -/
def jsSlice {α : Type} (l : List α) (a b : Nat) : List α := (l.drop a).take (b - a)

/-- Node `buf.readUInt8(off)`: throws ERR_OUT_OF_RANGE unless one byte is
available at `off`. -/
def readUInt8 (msg : List Nat) (off : Nat) : Except NodeError Nat :=
  if off + 1 ≤ msg.length then .ok (msg.getD off 0) else .error .outOfRange

/-- Node `buf.readUInt16BE(off)`: big-endian, throws ERR_OUT_OF_RANGE unless
two bytes are available at `off`. -/
def readUInt16BE (msg : List Nat) (off : Nat) : Except NodeError Nat :=
  if off + 2 ≤ msg.length then .ok (msg.getD off 0 * 256 + msg.getD (off + 1) 0)
  else .error .outOfRange

/-- Node `buf.readUInt32BE(off)`: big-endian, throws ERR_OUT_OF_RANGE unless
four bytes are available at `off`. -/
def readUInt32BE (msg : List Nat) (off : Nat) : Except NodeError Nat :=
  if off + 4 ≤ msg.length then
    .ok (msg.getD off 0 * 16777216 + msg.getD (off + 1) 0 * 65536 +
      msg.getD (off + 2) 0 * 256 + msg.getD (off + 3) 0)
  else .error .outOfRange

/-- Node `Buffer.alloc(2)` followed by `writeUInt16BE(v)`, the pattern the
source uses for every 16-bit field: yields the two big-endian bytes, throwing
ERR_OUT_OF_RANGE when the value does not fit 16 bits. -/
def allocWriteUInt16BE (v : Nat) : Except NodeError (List Nat) :=
  if v < 65536 then .ok [v / 256, v % 256] else .error .outOfRange

/-- Node `Buffer.alloc(4)` followed by `writeUInt32BE(v)`: the four
big-endian bytes, throwing ERR_OUT_OF_RANGE when the value does not fit
32 bits. -/
def allocWriteUInt32BE (v : Nat) : Except NodeError (List Nat) :=
  if v < 4294967296 then
    .ok [v / 16777216, v / 65536 % 256, v / 256 % 256, v % 256]
  else .error .outOfRange

/-- Node `buf.writeUInt8(v, off)` on an existing buffer: sets one byte,
throwing ERR_OUT_OF_RANGE when the offset is outside the buffer or the value
exceeds 255. -/
def jsWriteUInt8 (buf : List Nat) (off v : Nat) : Except NodeError (List Nat) :=
  if off + 1 ≤ buf.length ∧ v ≤ 255 then .ok (buf.set off v) else .error .outOfRange

/-- UTF-8 bytes of one code point below 0x10000 (surrogate halves are not
special-cased; the codec only ever writes ASCII). -/
def utf8Char (c : Nat) : List Nat :=
  if c < 128 then [c]
  else if c < 2048 then [192 + c / 64, 128 + c % 64]
  else [224 + c / 4096, 128 + c / 64 % 64, 128 + c % 64]

/-- UTF-8 encoding of a JavaScript string (list of code units). -/
def utf8Bytes (s : List Nat) : List Nat := (s.map utf8Char).flatten

/-- Node `buf.write(s, off)` with the default utf8 encoding: writes at most
`buf.length - off` bytes, silently clamping, and never throws for
nonnegative offsets at or below the buffer length. -/
def bufWrite (buf : List Nat) (off : Nat) (s : List Nat) : List Nat :=
  let bytes := (utf8Bytes s).take (buf.length - off)
  buf.take off ++ bytes ++ buf.drop (off + bytes.length)

/-- Binary digit character, as produced by JavaScript `n.toString(2)`. -/
def binDigit (n : Nat) : Char := if n = 1 then '1' else '0'

def binDigitsAux : Nat → Nat → List Char
  | 0, _ => []
  | fuel + 1, n =>
    if n < 2 then [binDigit n]
    else binDigitsAux fuel (n / 2) ++ [binDigit (n % 2)]

/-- JavaScript `n.toString(2)`: most-significant digit first, at least one
digit (`(0).toString(2)` is the single digit 0). -/
def binDigits (n : Nat) : List Char := binDigitsAux (n + 1) n

/-- JavaScript `s.padStart(k, c)`: pad on the left up to length `k`; a string
already at least that long is returned unchanged. -/
def padStart (k : Nat) (c : Char) (s : List Char) : List Char :=
  List.replicate (k - s.length) c ++ s

def isBinDigit (c : Char) : Bool := c = '0' || c = '1'

def binVal (c : Char) : Nat := if c = '1' then 1 else 0

/-- Value of a string of binary digits, most significant first. -/
def parseBin (s : List Char) : Nat := s.foldl (fun a c => 2 * a + binVal c) 0

/-- JavaScript `parseInt(s, 2)`: parses the maximal prefix of binary digits
and is NaN (`none`) when there is none.  (The leading-whitespace and sign
handling of parseInt is omitted: every string this codec passes to it is a
concatenation of binary-digit strings.) -/
def parseInt2 (s : List Char) : Option Nat :=
  let ds := s.takeWhile isBinDigit
  if ds.isEmpty then none else some (parseBin ds)

/-- Flag sub-fields exactly as the source keeps them: fixed-width
binary-digit strings sliced out of the 16-bit flags word. -/
structure Flags where
  qr : List Char
  opcode : List Char
  aa : List Char
  tc : List Char
  rd : List Char
  ra : List Char
  zero : List Char
  rcode : List Char
  deriving DecidableEq

structure Header where
  transactionId : Nat
  flags : Flags
  questionRRC : Nat
  answerRRC : Nat
  authorityRRC : Nat
  additionalRRC : Nat
  deriving DecidableEq

/-- Node `writeUInt16BE` applied to the result of a `parseInt` call: a NaN
argument (`none`) makes the write throw ERR_OUT_OF_RANGE. -/
def allocWriteUInt16BEOpt (v : Option Nat) : Except NodeError (List Nat) :=
  match v with
  | none => .error .outOfRange
  | some x => allocWriteUInt16BE x

/-- pkgHeader (src/index.js lines 10-35): six 16-bit big-endian fields; the
flags word is rebuilt by concatenating the sub-field digit strings and
parsing them base 2 (a non-numeric result would make writeUInt16BE throw). -/
def pkgHeader (transactionId : Nat) (flags : Flags)
    (questionRRC answerRRC authorityRRC additionalRRC : Nat) :
    Except NodeError (List Nat) := do
  let transactionIdBuf ← allocWriteUInt16BE transactionId
  let flagsBuf ← allocWriteUInt16BEOpt
    (parseInt2 (flags.qr ++ flags.opcode ++ flags.aa ++ flags.tc ++
      flags.rd ++ flags.ra ++ flags.zero ++ flags.rcode))
  let questionRRCBuf ← allocWriteUInt16BE questionRRC
  let answerRRCBuf ← allocWriteUInt16BE answerRRC
  let authorityRRCBuf ← allocWriteUInt16BE authorityRRC
  let additionalRRCBuf ← allocWriteUInt16BE additionalRRC
  return transactionIdBuf ++ flagsBuf ++ questionRRCBuf ++ answerRRCBuf ++
    authorityRRCBuf ++ additionalRRCBuf

/-- unpkgHeader (src/index.js lines 37-100): reads the six 16-bit fields and
slices the zero-padded binary expansion of the flags word into the eight
sub-field strings.  No validation beyond the bounds checks of the reads. -/
def unpkgHeader (msg : List Nat) : Except NodeError Header := do
  let transactionId ← readUInt16BE msg 0
  let flagsDecimal ← readUInt16BE msg 2
  let flagsBits := padStart 16 '0' (binDigits flagsDecimal)
  let flags : Flags := ⟨jsSlice flagsBits 0 1, jsSlice flagsBits 1 5,
    jsSlice flagsBits 5 6, jsSlice flagsBits 6 7, jsSlice flagsBits 7 8,
    jsSlice flagsBits 8 9, jsSlice flagsBits 9 12, jsSlice flagsBits 12 16⟩
  let questionRRC ← readUInt16BE msg 4
  let answerRRC ← readUInt16BE msg 6
  let authorityRRC ← readUInt16BE msg 8
  let additionalRRC ← readUInt16BE msg 10
  return ⟨transactionId, flags, questionRRC, answerRRC, authorityRRC, additionalRRC⟩

def readLabelsAux (msg : List Nat) : Nat → Nat → List (List Nat) × Nat
  | 0, off => ([], off)
  | fuel + 1, off =>
    if off < msg.length then
      if msg.getD off 0 = 0 then ([], off + 1)
      else
        ((jsSlice msg (off + 1) (off + 1 + msg.getD off 0)).map (fun b => b % 128) ::
            (readLabelsAux msg fuel (off + 1 + msg.getD off 0)).1,
          (readLabelsAux msg fuel (off + 1 + msg.getD off 0)).2)
    else ([], off)

/-- Label-reading loop shared verbatim by unpkgQuestion (src/index.js lines
136-139) and both branches of unpkgRR (lines 187-190 and 193-196): reads
length-prefixed labels until a zero length byte or the end of the buffer,
decoding each label with toString('ascii') (low 7 bits of every byte) and
returning the loop's final cursor.  The fuel argument only realises the
termination of the JavaScript while-loop, whose cursor strictly increases. -/
def readLabels (msg : List Nat) (off : Nat) : List (List Nat) × Nat :=
  readLabelsAux msg msg.length off

structure UQuestion where
  names : List (List Nat)
  type : Nat
  clazz : Nat
  pointer : Nat
  offset : Nat
  name : List Nat
  deriving DecidableEq

/-- unpkgQuestion (src/index.js lines 130-154): label loop, then the 16-bit
type and class; `name` is the labels joined with dots. -/
def unpkgQuestion (msg : List Nat) (offset : Nat) : Except NodeError UQuestion := do
  let r := readLabels msg offset
  let type ← readUInt16BE msg r.2
  let clazz ← readUInt16BE msg (r.2 + 2)
  return ⟨r.1, type, clazz, offset, r.2 + 4, List.intercalate [46] r.1⟩

def pkgQuestionLoop : List Nat → Nat → List (List Nat) → Except NodeError (List Nat × Nat)
  | buf, off, [] => .ok (buf, off)
  | buf, off, name :: rest => do
    let buf1 ← jsWriteUInt8 buf off name.length
    pkgQuestionLoop (bufWrite buf1 (off + 1) name) (off + 1 + name.length) rest

/-- pkgQuestion (src/index.js lines 102-128): allocates a zero buffer of
`question.length + 2` bytes, writes each dot-separated label as a length
byte followed by the label's utf8 bytes, a zero terminator, then appends the
16-bit type and class. -/
def pkgQuestion (question : List Nat) (type clazz : Nat) : Except NodeError (List Nat) := do
  let br ← pkgQuestionLoop (List.replicate (question.length + 2) 0) 0
    (question.splitOn 46)
  let questionBuf2 ← jsWriteUInt8 br.1 br.2 0
  let typeBuf ← allocWriteUInt16BE type
  let clazzBuf ← allocWriteUInt16BE clazz
  return questionBuf2 ++ typeBuf ++ clazzBuf

structure URR where
  rrName : List (List Nat)
  rrType : Nat
  rrClass : Nat
  ttl : Nat
  rdl : Nat
  rd : Option (List Nat)
  offset : Nat
  deriving DecidableEq

/-- unpkgRR (src/index.js lines 179-246).  When the first byte has its top
two bits set, the 16-bit word at the cursor is masked with 0b00111111 (six
bits - exactly as the source does) and the label loop runs from that masked
offset in the same buffer, the cursor advancing only past the two pointer
bytes; otherwise the label loop runs in place.  Then the 16-bit type and
class, 32-bit ttl and 16-bit rdlength are read, and `rdl` bytes of resource
data are sliced out (Buffer.slice clamps at the end of the buffer).  The
debug line for type-1 records formats `rd.readUInt8(0)` through
`rd.readUInt8(3)`; those argument reads are evaluated even with logging
disabled and throw ERR_OUT_OF_RANGE when the sliced data is shorter than
four bytes. -/
def unpkgRR (msg : List Nat) (offset : Nat) : Except NodeError URR := do
  let first ← readUInt8 msg offset
  let nr ←
    if first &&& 192 = 192 then do
      let w ← readUInt16BE msg offset
      Except.ok ((readLabels msg (w &&& 63)).1, offset + 2)
    else Except.ok (readLabels msg offset)
  let rrType ← readUInt16BE msg nr.2
  let rrClass ← readUInt16BE msg (nr.2 + 2)
  let ttl ← readUInt32BE msg (nr.2 + 4)
  let rdl ← readUInt16BE msg (nr.2 + 8)
  if 0 < rdl then
    let rd := jsSlice msg (nr.2 + 10) (nr.2 + 10 + rdl)
    if rrType = 1 ∧ rd.length < 4 then Except.error NodeError.outOfRange
    else Except.ok ⟨nr.1, rrType, rrClass, ttl, rdl, some rd, nr.2 + 10 + rdl⟩
  else Except.ok ⟨nr.1, rrType, rrClass, ttl, rdl, none, nr.2 + 10⟩

def decodeQuestions (msg : List Nat) : Nat → Nat → Except NodeError (List UQuestion × Nat)
  | 0, off => .ok ([], off)
  | n + 1, off => do
    let q ← unpkgQuestion msg off
    let r ← decodeQuestions msg n q.offset
    return (q :: r.1, r.2)

def decodeRRs (msg : List Nat) : Nat → Nat → Except NodeError (List URR × Nat)
  | 0, off => .ok ([], off)
  | n + 1, off => do
    let rr ← unpkgRR msg off
    let r ← decodeRRs msg n rr.offset
    return (rr :: r.1, r.2)

structure DnsMessage where
  header : Header
  questions : List UQuestion
  answers : List URR
  authorities : List URR
  additionals : List URR
  deriving DecidableEq

/-- unpkgdns (src/index.js lines 248-291): header from the first twelve
bytes, then `questionRRC` questions from offset 12, then `answerRRC`,
`authorityRRC` and `additionalRRC` resource records, threading the cursor.
Trailing bytes are ignored. -/
def unpkgdns (msg : List Nat) : Except NodeError DnsMessage := do
  let header ← unpkgHeader (jsSlice msg 0 12)
  let qr ← decodeQuestions msg header.questionRRC 12
  let ar ← decodeRRs msg header.answerRRC qr.2
  let aur ← decodeRRs msg header.authorityRRC ar.2
  let adr ← decodeRRs msg header.additionalRRC aur.2
  return ⟨header, qr.1, ar.1, aur.1, adr.1⟩

structure PQuestion where
  name : List Nat
  type : Nat
  clazz : Nat
  deriving DecidableEq

def pkgQuestionList : List PQuestion → Except NodeError (List (List Nat))
  | [] => .ok []
  | q :: rest => do
    let b ← pkgQuestion q.name q.type q.clazz
    let bs ← pkgQuestionList rest
    return b :: bs

/-- pkgRR (src/index.js lines 156-177): one pkgQuestion buffer per entry of
`questions` (so name, type and class), then the 32-bit ttl, the 16-bit
length of the resource data and the data itself.  The resource data is
modelled as the Buffer case of the source; the string-with-encoding input
coercion is outside the modelled input domain. -/
def pkgRR (questions : List PQuestion) (ttl : Nat) (rdd : List Nat) :
    Except NodeError (List Nat) := do
  let questionBufs ← pkgQuestionList questions
  let ttlBuf ← allocWriteUInt32BE ttl
  let rdlBuf ← allocWriteUInt16BE rdd.length
  return questionBufs.flatten ++ ttlBuf ++ rdlBuf ++ rdd

structure EncRR where
  name : List Nat
  type : Nat
  clazz : Nat
  ttl : Nat
  rd : List Nat
  deriving DecidableEq

structure EncMessage where
  transactionId : Nat
  flags : Flags
  questions : List PQuestion
  answers : List EncRR
  authorities : List EncRR
  additionals : List EncRR
  deriving DecidableEq

def pkgRRList : List EncRR → Except NodeError (List (List Nat))
  | [] => .ok []
  | r :: rest => do
    let b ← pkgRR [⟨r.name, r.type, r.clazz⟩] r.ttl r.rd
    let bs ← pkgRRList rest
    return b :: bs

/-- Message encoder as the round-trip claim specifies it: pkgHeader with the
counts taken from the section lengths, concatenated with pkgQuestion for
each question and pkgRR for each resource record, every record carrying its
single name/type/class triple in pkgRR's questions argument. -/
def pkgdns (m : EncMessage) : Except NodeError (List Nat) := do
  let hb ← pkgHeader m.transactionId m.flags m.questions.length m.answers.length
    m.authorities.length m.additionals.length
  let qbs ← pkgQuestionList m.questions
  let abs ← pkgRRList m.answers
  let aubs ← pkgRRList m.authorities
  let adbs ← pkgRRList m.additionals
  return hb ++ qbs.flatten ++ abs.flatten ++ aubs.flatten ++ adbs.flatten

/-- Hard-coded sample message of src/index.js lines 345-346 (hex
15a98180...): a response for www.baidu.com with one question, three answers
and one additional record. -/
def specMsg : List Nat :=
  [21, 169, 129, 128, 0, 1, 0, 3, 0, 0, 0, 1, 3, 119, 119, 119, 5, 98, 97,
   105, 100, 117, 3, 99, 111, 109, 0, 0, 1, 0, 1, 192, 12, 0, 5, 0, 1, 0, 0,
   4, 94, 0, 15, 3, 119, 119, 119, 1, 97, 6, 115, 104, 105, 102, 101, 110,
   192, 22, 192, 43, 0, 1, 0, 1, 0, 0, 0, 218, 0, 4, 180, 149, 132, 151,
   192, 43, 0, 1, 0, 1, 0, 0, 0, 218, 0, 4, 180, 149, 131, 98, 0, 0, 41, 16,
   0, 0, 0, 0, 0, 0, 0]

/-! ## Derived byte-level descriptions of the encoders -/

/-- Big-endian bytes of a 16-bit value. -/
def u16Bytes (v : Nat) : List Nat := [v / 256, v % 256]

/-- Big-endian bytes of a 32-bit value. -/
def u32Bytes (v : Nat) : List Nat :=
  [v / 16777216, v / 65536 % 256, v / 256 % 256, v % 256]

/-- Wire bytes of a label sequence without the terminator: every label as a
length byte followed by its bytes. -/
def nameBytes (labels : List (List Nat)) : List Nat :=
  (labels.map (fun l => l.length :: l)).flatten

/-- Wire bytes of one question entry: name (with zero terminator), type,
class. -/
def encQ (q : PQuestion) : List Nat :=
  nameBytes (q.name.splitOn 46) ++ [0] ++ u16Bytes q.type ++ u16Bytes q.clazz

/-- Wire bytes of one resource record as pkgRR emits it for a single
name/type/class triple. -/
def encRR (r : EncRR) : List Nat :=
  nameBytes (r.name.splitOn 46) ++ [0] ++ u16Bytes r.type ++ u16Bytes r.clazz ++
    u32Bytes r.ttl ++ u16Bytes r.rd.length ++ r.rd

/-! ## Validity of encoder inputs (the hypotheses of the round-trip claim) -/

/-- ASCII label of 1-63 bytes. -/
def ValidLabel (l : List Nat) : Prop :=
  1 ≤ l.length ∧ l.length ≤ 63 ∧ ∀ b ∈ l, b < 128

/-- Dotted name whose dot-separated labels are all valid and whose encoded
form (labels, length bytes and terminator) stays within 255 bytes. -/
def ValidName (n : List Nat) : Prop :=
  (∀ l ∈ n.splitOn 46, ValidLabel l) ∧ n.length ≤ 253

def ValidQuestion (q : PQuestion) : Prop :=
  ValidName q.name ∧ q.type < 65536 ∧ q.clazz < 65536

def ValidRR (r : EncRR) : Prop :=
  ValidName r.name ∧ r.type < 65536 ∧ r.clazz < 65536 ∧ r.ttl < 4294967296 ∧
    r.rd.length < 65536 ∧ ∀ b ∈ r.rd, b < 256

/-- Fixed-width binary-digit strings for the eight flag sub-fields. -/
def ValidFlags (f : Flags) : Prop :=
  (f.qr.length = 1 ∧ f.opcode.length = 4 ∧ f.aa.length = 1 ∧ f.tc.length = 1 ∧
    f.rd.length = 1 ∧ f.ra.length = 1 ∧ f.zero.length = 3 ∧ f.rcode.length = 4) ∧
    ∀ c ∈ f.qr ++ f.opcode ++ f.aa ++ f.tc ++ f.rd ++ f.ra ++ f.zero ++ f.rcode,
      isBinDigit c

/-- Validity of a message for the round-trip claim exactly as stated: names
made of ASCII labels of 1-63 bytes with bounded total length, in-range
numeric fields, resource data of at most 65535 bytes. -/
def ValidMessage (m : EncMessage) : Prop :=
  m.transactionId < 65536 ∧ ValidFlags m.flags ∧
    m.questions.length < 65536 ∧ m.answers.length < 65536 ∧
    m.authorities.length < 65536 ∧ m.additionals.length < 65536 ∧
    (∀ q ∈ m.questions, ValidQuestion q) ∧
    (∀ r ∈ m.answers, ValidRR r) ∧ (∀ r ∈ m.authorities, ValidRR r) ∧
    (∀ r ∈ m.additionals, ValidRR r)

/-- Extra hypothesis the code forces on type-1 (A) records: the debug
formatting of the decoder reads four resource-data bytes, so rdata of length
1-3 makes the decoder throw. -/
def ValidRRD (r : EncRR) : Prop :=
  ValidRR r ∧ (r.type = 1 → r.rd.length = 0 ∨ 4 ≤ r.rd.length)

def ValidMessageAmended (m : EncMessage) : Prop :=
  ValidMessage m ∧ (∀ r ∈ m.answers, ValidRRD r) ∧
    (∀ r ∈ m.authorities, ValidRRD r) ∧ (∀ r ∈ m.additionals, ValidRRD r)

/-- Decoded question carries the same name, type and class as the encoder
input. -/
def QMatch (uq : UQuestion) (q : PQuestion) : Prop :=
  uq.name = q.name ∧ uq.type = q.type ∧ uq.clazz = q.clazz

/-- Decoded record carries the same name (labels joined with dots), type,
class, ttl, and the same resource data - the decoder leaving the field
absent exactly when the data is empty. -/
def RRMatch (ur : URR) (r : EncRR) : Prop :=
  List.intercalate [46] ur.rrName = r.name ∧ ur.rrType = r.type ∧
    ur.rrClass = r.clazz ∧ ur.ttl = r.ttl ∧
    ur.rd = (if r.rd = [] then none else some r.rd)

/-! ## Derived descriptions of encoder output -/

/-- Flag sub-fields unpkgHeader produces for a 16-bit flags word. -/
def headerFlagsOf (fv : Nat) : Flags :=
  ⟨jsSlice (padStart 16 '0' (binDigits fv)) 0 1,
   jsSlice (padStart 16 '0' (binDigits fv)) 1 5,
   jsSlice (padStart 16 '0' (binDigits fv)) 5 6,
   jsSlice (padStart 16 '0' (binDigits fv)) 6 7,
   jsSlice (padStart 16 '0' (binDigits fv)) 7 8,
   jsSlice (padStart 16 '0' (binDigits fv)) 8 9,
   jsSlice (padStart 16 '0' (binDigits fv)) 9 12,
   jsSlice (padStart 16 '0' (binDigits fv)) 12 16⟩

/-- Concatenated wire bytes of the question section. -/
def encQList (qs : List PQuestion) : List Nat := (qs.map encQ).flatten

/-- Concatenated wire bytes of a resource-record section. -/
def encRRList (rs : List EncRR) : List Nat := (rs.map encRR).flatten

/-- Wire bytes of the header for an encoder-input message. -/
def hdrBytes (m : EncMessage) : List Nat :=
  u16Bytes m.transactionId ++
    u16Bytes (parseBin (m.flags.qr ++ m.flags.opcode ++ m.flags.aa ++
      m.flags.tc ++ m.flags.rd ++ m.flags.ra ++ m.flags.zero ++
      m.flags.rcode)) ++
    u16Bytes m.questions.length ++ u16Bytes m.answers.length ++
    u16Bytes m.authorities.length ++ u16Bytes m.additionals.length

/-! ## Concrete claim inputs -/

/-- All-zero flags value (the 0x0000 flags word as sub-field strings). -/
def flags0 : Flags := ⟨['0'], ['0', '0', '0', '0'], ['0'], ['0'], ['0'], ['0'],
  ['0', '0', '0'], ['0', '0', '0', '0']⟩

/-- Structurally valid message with one type-1 answer whose rdata is one
byte: the round-trip claim's hypotheses accept it, but decoding its encoding
throws (the debug formatting reads four rdata bytes). -/
def cexM1 : EncMessage := ⟨0, flags0, [], [⟨[97], 1, 1, 0, [7]⟩], [], []⟩

/-- Wire bytes pkgdns produces for cexM1. -/
def cexBytes1 : List Nat :=
  [0, 0, 0, 0, 0, 0, 0, 1, 0, 0, 0, 0, 1, 97, 0, 0, 1, 0, 1, 0, 0, 0, 0, 0,
   1, 7]

/-- Valid message exercising the amended round trip: one question and one
type-5 answer with four rdata bytes. -/
def cexM0 : EncMessage :=
  ⟨1, flags0, [⟨[97], 1, 1⟩], [⟨[97], 5, 1, 30, [1, 2, 3, 4]⟩], [], []⟩

/-- Valid 29-byte message (one type-5 answer with rdlength 4) used for the
truncation claim: cutting it at byte 27 still decodes, with clamped rdata. -/
def cexMsg4 : List Nat :=
  [0, 0, 0, 0, 0, 0, 0, 1, 0, 0, 0, 0, 1, 97, 0, 0, 5, 0, 1, 0, 0, 0, 0, 0,
   4, 1, 2, 3, 4]

/-- Buffer with a compression pointer c00c at offset 12 whose (masked)
target is offset 12 itself: a self pointer. -/
def cex3 : List Nat :=
  [0, 0, 0, 0, 0, 0, 0, 0, 0, 0, 0, 0, 192, 12, 0, 5, 0, 1, 0, 0, 0, 0, 0, 0]

/-- Buffer with the name of label b at offset 0, a compression pointer c040
(14-bit target 64) at offset 12, and the name of label a at offset 64. -/
def cex2 : List Nat :=
  [1, 98, 0, 0, 0, 0, 0, 0, 0, 0, 0, 0, 192, 64, 0, 5, 0, 1, 0, 0, 0, 0, 0,
   0] ++ List.replicate 40 0 ++ [1, 97, 0]

/-- Record whose declared rdlength 5 exceeds the two remaining bytes. -/
def cex7 : List Nat := [1, 97, 0, 0, 5, 0, 1, 0, 0, 0, 0, 0, 5, 9, 9]

/-- Code units of the string www.baidu.com. -/
def wwwbaidu : List Nat :=
  [119, 119, 119, 46, 98, 97, 105, 100, 117, 46, 99, 111, 109]

/-- Label of 63 a-bytes. -/
def lab63 : List Nat := List.replicate 63 97

/-- Label of 64 a-bytes. -/
def lab64 : List Nat := List.replicate 64 97

/-- The twelve header bytes of specMsg (flags word 0x8180). -/
def hdr12 : List Nat := [21, 169, 129, 128, 0, 1, 0, 3, 0, 0, 0, 1]

/-! ## Fuel elimination for the two loops -/

theorem readLabelsAux_congr (msg : List Nat) :
    ∀ f g off, msg.length ≤ off + f → msg.length ≤ off + g →
      readLabelsAux msg f off = readLabelsAux msg g off := by
  intro f
  induction f with
  | zero =>
    intro g off hf hg
    cases g with
    | zero => rfl
    | succ g' =>
      simp only [readLabelsAux]
      rw [if_neg (by omega)]
  | succ f' ih =>
    intro g off hf hg
    cases g with
    | zero =>
      simp only [readLabelsAux]
      rw [if_neg (by omega)]
    | succ g' =>
      simp only [readLabelsAux]
      by_cases hoff : off < msg.length
      · rw [if_pos hoff, if_pos hoff]
        by_cases hz : msg.getD off 0 = 0
        · rw [if_pos hz, if_pos hz]
        · rw [if_neg hz, if_neg hz,
            ih g' (off + 1 + msg.getD off 0) (by omega) (by omega)]
      · rw [if_neg hoff, if_neg hoff]

/-- One-step unfolding of the label loop, independent of the fuel. -/
theorem readLabels_eq (msg : List Nat) (off : Nat) :
    readLabels msg off =
      if off < msg.length then
        if msg.getD off 0 = 0 then ([], off + 1)
        else
          ((jsSlice msg (off + 1) (off + 1 + msg.getD off 0)).map (fun b => b % 128) ::
              (readLabels msg (off + 1 + msg.getD off 0)).1,
            (readLabels msg (off + 1 + msg.getD off 0)).2)
      else ([], off) := by
  cases hl : msg.length with
  | zero =>
    show readLabelsAux msg msg.length off = _
    rw [hl]
    simp only [readLabelsAux]
    rw [if_neg (by omega)]
  | succ n =>
    show readLabelsAux msg msg.length off = _
    conv_lhs => rw [hl]
    simp only [readLabelsAux]
    by_cases hoff : off < msg.length
    · rw [if_pos hoff, if_pos (show off < n + 1 by omega)]
      by_cases hz : msg.getD off 0 = 0
      · rw [if_pos hz, if_pos hz]
      · rw [if_neg hz, if_neg hz,
          readLabelsAux_congr msg n (msg.length) (off + 1 + msg.getD off 0)
            (by omega) (by omega)]
        rfl
    · rw [if_neg hoff, if_neg (show ¬off < n + 1 by omega)]

theorem binDigitsAux_congr :
    ∀ f g n, n < f → n < g → binDigitsAux f n = binDigitsAux g n := by
  intro f
  induction f with
  | zero => intro g n hf; omega
  | succ f' ih =>
    intro g n hf hg
    cases g with
    | zero => omega
    | succ g' =>
      simp only [binDigitsAux]
      by_cases h2 : n < 2
      · rw [if_pos h2, if_pos h2]
      · rw [if_neg h2, if_neg h2, ih g' (n / 2) (by omega) (by omega)]

/-- One-step unfolding of the binary-digit expansion. -/
theorem binDigits_eq (n : Nat) :
    binDigits n =
      if n < 2 then [binDigit n]
      else binDigits (n / 2) ++ [binDigit (n % 2)] := by
  show binDigitsAux (n + 1) n = _
  by_cases h2 : n < 2
  · simp only [binDigitsAux]
    rw [if_pos h2, if_pos h2]
  · simp only [binDigitsAux]
    rw [if_neg h2, if_neg h2,
      binDigitsAux_congr n (n / 2 + 1) (n / 2) (by omega) (by omega)]
    rfl

/-! ## Arithmetic of binary-digit strings -/

theorem parseBin_foldl (b : List Char) :
    ∀ init, b.foldl (fun a c => 2 * a + binVal c) init =
      init * 2 ^ b.length + parseBin b := by
  induction b with
  | nil => intro init; simp [parseBin]
  | cons c t ih =>
    intro init
    have h1 : parseBin (c :: t) = binVal c * 2 ^ t.length + parseBin t := by
      show List.foldl _ _ (c :: t) = _
      rw [List.foldl_cons, ih (2 * 0 + binVal c)]
      ring
    rw [List.foldl_cons, ih (2 * init + binVal c), h1]
    simp [List.length_cons, Nat.pow_succ]
    ring

theorem parseBin_cons (c : Char) (t : List Char) :
    parseBin (c :: t) = binVal c * 2 ^ t.length + parseBin t := by
  show List.foldl _ _ (c :: t) = _
  rw [List.foldl_cons, parseBin_foldl t (2 * 0 + binVal c)]
  ring

theorem parseBin_append (a b : List Char) :
    parseBin (a ++ b) = parseBin a * 2 ^ b.length + parseBin b := by
  show List.foldl _ _ (a ++ b) = _
  rw [List.foldl_append, parseBin_foldl b (List.foldl _ 0 a)]
  rfl

theorem binVal_le (c : Char) : binVal c ≤ 1 := by
  unfold binVal
  by_cases h : c = '1' <;> simp [h]

theorem parseBin_lt (s : List Char) : parseBin s < 2 ^ s.length := by
  induction s with
  | nil => simp [parseBin]
  | cons c t ih =>
    rw [parseBin_cons]
    have := binVal_le c
    have h2 : (2:Nat) ^ (c :: t).length = 2 * 2 ^ t.length := by
      simp [List.length_cons, Nat.pow_succ]; ring
    rw [h2]
    nlinarith

theorem parseBin_replicate_zero (k : Nat) :
    parseBin (List.replicate k '0') = 0 := by
  induction k with
  | zero => simp [parseBin]
  | succ n ih =>
    rw [List.replicate_succ, parseBin_cons, ih]
    simp [binVal]

theorem parseBin_padStart (k : Nat) (s : List Char) :
    parseBin (padStart k '0' s) = parseBin s := by
  unfold padStart
  rw [parseBin_append, parseBin_replicate_zero]
  simp

theorem parseBin_binDigits (n : Nat) : parseBin (binDigits n) = n := by
  induction n using Nat.strong_induction_on with
  | _ n ih =>
    rw [binDigits_eq]
    by_cases h2 : n < 2
    · rw [if_pos h2]
      interval_cases n <;> decide
    · rw [if_neg h2, parseBin_append, ih (n / 2) (by omega)]
      have hd : parseBin [binDigit (n % 2)] = n % 2 := by
        have hm : n % 2 = 0 ∨ n % 2 = 1 := by omega
        rcases hm with hm | hm <;> rw [hm] <;> decide
      rw [hd]
      simp [List.length_singleton]
      omega

theorem binDigit_isBinDigit (m : Nat) : isBinDigit (binDigit m) := by
  unfold binDigit
  by_cases h : m = 1 <;> simp [h, isBinDigit]

theorem binDigits_digits (n : Nat) : ∀ c ∈ binDigits n, isBinDigit c := by
  induction n using Nat.strong_induction_on with
  | _ n ih =>
    rw [binDigits_eq]
    by_cases h2 : n < 2
    · rw [if_pos h2]
      intro c hc
      rw [List.mem_singleton] at hc
      rw [hc]
      exact binDigit_isBinDigit n
    · rw [if_neg h2]
      intro c hc
      rw [List.mem_append] at hc
      rcases hc with hc | hc
      · exact ih (n / 2) (by omega) c hc
      · rw [List.mem_singleton] at hc
        rw [hc]
        exact binDigit_isBinDigit (n % 2)

theorem binDigits_length_le (n : Nat) :
    ∀ k, n < 2 ^ k → 1 ≤ k → (binDigits n).length ≤ k := by
  induction n using Nat.strong_induction_on with
  | _ n ih =>
    intro k hk hk1
    by_cases h2 : n < 2
    · rw [binDigits_eq, if_pos h2]
      simpa using hk1
    · cases k with
      | zero => omega
      | succ k' =>
        cases k' with
        | zero =>
          have : (2:Nat) ^ 1 = 2 := by norm_num
          omega
        | succ k'' =>
          have hp : (2:Nat) ^ (k'' + 1 + 1) = 2 * 2 ^ (k'' + 1) := by
            rw [Nat.pow_succ]; ring
          have hlt : n / 2 < 2 ^ (k'' + 1) := by omega
          have hlen := ih (n / 2) (by omega) (k'' + 1) hlt (by omega)
          rw [binDigits_eq, if_neg h2]
          rw [List.length_append, List.length_singleton]
          omega

theorem padStart_succ (k : Nat) (c : Char) (s : List Char) (h : s.length ≤ k) :
    padStart (k + 1) c s = c :: padStart k c s := by
  unfold padStart
  rw [show k + 1 - s.length = (k - s.length) + 1 by omega, List.replicate_succ]
  rfl

theorem padStart_eq_self (k : Nat) (c : Char) (s : List Char) (h : k ≤ s.length) :
    padStart k c s = s := by
  unfold padStart
  rw [show k - s.length = 0 by omega]
  simp

theorem padStart_length (k : Nat) (c : Char) (s : List Char) (h : s.length ≤ k) :
    (padStart k c s).length = k := by
  unfold padStart
  rw [List.length_append, List.length_replicate]
  omega

theorem binDigits_two_pow_add (k m : Nat) (hk : 1 ≤ k) (hm : m < 2 ^ k) :
    binDigits (2 ^ k + m) = '1' :: padStart k '0' (binDigits m) := by
  induction k, hk using Nat.le_induction generalizing m with
  | base =>
    have : m < 2 := by simpa using hm
    interval_cases m <;> decide
  | succ k hk1 ih =>
    have hp : (2:Nat) ^ (k + 1) = 2 * 2 ^ k := by rw [Nat.pow_succ]; ring
    have hn2 : ¬(2 ^ (k + 1) + m < 2) := by
      have : (2:Nat) ^ k ≥ 2 ^ 1 := Nat.pow_le_pow_right (by omega) hk1
      omega
    rw [binDigits_eq, if_neg hn2]
    have hdiv : (2 ^ (k + 1) + m) / 2 = 2 ^ k + m / 2 := by omega
    have hmod : (2 ^ (k + 1) + m) % 2 = m % 2 := by omega
    rw [hdiv, hmod, ih (m / 2) (by omega)]
    show ('1' :: padStart k '0' (binDigits (m / 2))) ++ [binDigit (m % 2)] =
      '1' :: padStart (k + 1) '0' (binDigits m)
    rw [List.cons_append]
    congr 1
    by_cases hm2 : m < 2
    · have hd0 : m / 2 = 0 := by omega
      have hd1 : m % 2 = m := by omega
      rw [hd0, hd1, binDigits_eq m, if_pos hm2]
      have hb0 : binDigits 0 = ['0'] := by decide
      rw [hb0]
      obtain ⟨k', rfl⟩ : ∃ k', k = k' + 1 := ⟨k - 1, by omega⟩
      unfold padStart
      simp only [List.length_singleton]
      rw [show k' + 1 - 1 = k' by omega, show k' + 1 + 1 - 1 = k' + 1 by omega,
        List.replicate_succ']
    · rw [binDigits_eq m, if_neg hm2]
      have hlt : m / 2 < 2 ^ k := by omega
      have hlen : (binDigits (m / 2)).length ≤ k :=
        binDigits_length_le (m / 2) k hlt hk1
      unfold padStart
      rw [List.length_append, List.length_singleton]
      rw [show k + 1 - ((binDigits (m / 2)).length + 1) = k - (binDigits (m / 2)).length
        by omega]
      simp [List.append_assoc]

theorem padStart_binDigits (s : List Char) :
    s ≠ [] → (∀ c ∈ s, isBinDigit c) →
      padStart s.length '0' (binDigits (parseBin s)) = s := by
  induction s with
  | nil => intro h; exact absurd rfl h
  | cons c t ih =>
    intro _ hd
    have hc : c = '0' ∨ c = '1' := by
      have := hd c (List.mem_cons_self _ _)
      revert this
      unfold isBinDigit
      by_cases h0 : c = '0'
      · intro _; exact Or.inl h0
      · by_cases h1 : c = '1'
        · intro _; exact Or.inr h1
        · simp [h0, h1]
    cases t with
    | nil =>
      rcases hc with rfl | rfl <;> decide
    | cons c2 t2 =>
      have hdt : ∀ x ∈ c2 :: t2, isBinDigit x :=
        fun x hx => hd x (List.mem_cons_of_mem _ hx)
      have hIH := ih (by simp) hdt
      rw [parseBin_cons]
      have hlt : parseBin (c2 :: t2) < 2 ^ (c2 :: t2).length := parseBin_lt _
      rcases hc with rfl | rfl
      · have hbv : binVal '0' = 0 := by decide
        rw [hbv, Nat.zero_mul, Nat.zero_add]
        have hlen : (binDigits (parseBin (c2 :: t2))).length ≤ (c2 :: t2).length :=
          binDigits_length_le _ _ hlt (by simp)
        rw [show (('0':Char) :: c2 :: t2).length = (c2 :: t2).length + 1 from rfl]
        rw [padStart_succ _ _ _ hlen, hIH]
      · have hbv : binVal '1' = 1 := by decide
        rw [hbv, Nat.one_mul]
        rw [binDigits_two_pow_add (c2 :: t2).length (parseBin (c2 :: t2)) (by simp) hlt]
        rw [hIH]
        apply padStart_eq_self
        simp

/-! ## Byte-position helpers -/

@[simp] theorem except_bind_ok {ε α β : Type} (a : α) (f : α → Except ε β) :
    (Except.ok a >>= f) = f a := rfl

@[simp] theorem except_bind_error {ε α β : Type} (e : ε) (f : α → Except ε β) :
    ((Except.error e : Except ε α) >>= f) = .error e := rfl

theorem allocWriteUInt16BE_ok (v : Nat) (h : v < 65536) :
    allocWriteUInt16BE v = .ok (u16Bytes v) := by
  unfold allocWriteUInt16BE u16Bytes
  rw [if_pos h]

theorem allocWriteUInt32BE_ok (v : Nat) (h : v < 4294967296) :
    allocWriteUInt32BE v = .ok (u32Bytes v) := by
  unfold allocWriteUInt32BE u32Bytes
  rw [if_pos h]

theorem getD_at (p r : List Nat) (i : Nat) :
    (p ++ r).getD (p.length + i) 0 = r.getD i 0 := by
  rw [List.getD_append_right _ _ _ _ (Nat.le_add_right _ _)]
  simp

theorem getD_at0 (p r : List Nat) : (p ++ r).getD p.length 0 = r.getD 0 0 := by
  have := getD_at p r 0
  simpa using this

theorem readUInt8_append (p r : List Nat) (x : Nat) :
    readUInt8 (p ++ x :: r) p.length = .ok x := by
  unfold readUInt8
  rw [if_pos (by simp only [List.length_append, List.length_cons]; omega)]
  rw [getD_at0]
  rfl

theorem readUInt16BE_append (p r : List Nat) (x y : Nat) :
    readUInt16BE (p ++ x :: y :: r) p.length = .ok (x * 256 + y) := by
  unfold readUInt16BE
  rw [if_pos (by simp only [List.length_append, List.length_cons]; omega)]
  have h0 : (p ++ x :: y :: r).getD p.length 0 = x := by rw [getD_at0]; rfl
  have h1 : (p ++ x :: y :: r).getD (p.length + 1) 0 = y := by rw [getD_at]; rfl
  rw [h0, h1]

theorem readUInt32BE_append (p r : List Nat) (x y z w : Nat) :
    readUInt32BE (p ++ x :: y :: z :: w :: r) p.length =
      .ok (x * 16777216 + y * 65536 + z * 256 + w) := by
  unfold readUInt32BE
  rw [if_pos (by simp only [List.length_append, List.length_cons]; omega)]
  have h0 : (p ++ x :: y :: z :: w :: r).getD p.length 0 = x := by rw [getD_at0]; rfl
  have h1 : (p ++ x :: y :: z :: w :: r).getD (p.length + 1) 0 = y := by rw [getD_at]; rfl
  have h2 : (p ++ x :: y :: z :: w :: r).getD (p.length + 2) 0 = z := by rw [getD_at]; rfl
  have h3 : (p ++ x :: y :: z :: w :: r).getD (p.length + 3) 0 = w := by rw [getD_at]; rfl
  rw [h0, h1, h2, h3]

theorem readUInt16BE_u16 (p r : List Nat) (v : Nat) (h : v < 65536) :
    readUInt16BE (p ++ u16Bytes v ++ r) p.length = .ok v := by
  have he : p ++ u16Bytes v ++ r = p ++ v / 256 :: v % 256 :: r := by
    simp [u16Bytes]
  rw [he, readUInt16BE_append]
  congr 1
  omega

theorem readUInt32BE_u32 (p r : List Nat) (v : Nat) (h : v < 4294967296) :
    readUInt32BE (p ++ u32Bytes v ++ r) p.length = .ok v := by
  have he : p ++ u32Bytes v ++ r =
      p ++ v / 16777216 :: v / 65536 % 256 :: v / 256 % 256 :: v % 256 :: r := by
    simp [u32Bytes]
  rw [he, readUInt32BE_append]
  congr 1
  omega

theorem jsSlice_middle {α : Type} (p f r : List α) :
    jsSlice (p ++ f ++ r) p.length (p.length + f.length) = f := by
  unfold jsSlice
  rw [List.append_assoc, List.drop_left]
  rw [show p.length + f.length - p.length = f.length by omega]
  exact List.take_left f r

theorem jsSlice_concat {α : Type} (l : List α) (a b c : Nat)
    (hab : a ≤ b) (hbc : b ≤ c) :
    jsSlice l a b ++ jsSlice l b c = jsSlice l a c := by
  unfold jsSlice
  have hd : List.drop b l = List.drop (b - a) (List.drop a l) := by
    rw [List.drop_drop]
    congr 1
    omega
  rw [hd, show c - a = (b - a) + (c - b) by omega, List.take_add]

/-! ## Header codec lemmas -/

theorem unpkgHeader_ok (b : List Nat) (h : 12 ≤ b.length) :
    unpkgHeader b = .ok ⟨b.getD 0 0 * 256 + b.getD 1 0,
      headerFlagsOf (b.getD 2 0 * 256 + b.getD 3 0),
      b.getD 4 0 * 256 + b.getD 5 0, b.getD 6 0 * 256 + b.getD 7 0,
      b.getD 8 0 * 256 + b.getD 9 0, b.getD 10 0 * 256 + b.getD 11 0⟩ := by
  unfold unpkgHeader readUInt16BE
  rw [if_pos (show 0 + 2 ≤ b.length by omega), if_pos (show 2 + 2 ≤ b.length by omega),
    if_pos (show 4 + 2 ≤ b.length by omega), if_pos (show 6 + 2 ≤ b.length by omega),
    if_pos (show 8 + 2 ≤ b.length by omega), if_pos (show 10 + 2 ≤ b.length by omega)]
  simp only [except_bind_ok]
  norm_num [headerFlagsOf, pure, Except.pure]

theorem take16_eq {α : Type} (s : List α) (h : s.length = 16) :
    jsSlice s 0 16 = s := by
  unfold jsSlice
  rw [List.drop_zero]
  exact List.take_of_length_le (by omega)

theorem slices16_concat (s : List Char) (h : s.length = 16) :
    jsSlice s 0 1 ++ jsSlice s 1 5 ++ jsSlice s 5 6 ++ jsSlice s 6 7 ++
      jsSlice s 7 8 ++ jsSlice s 8 9 ++ jsSlice s 9 12 ++ jsSlice s 12 16 = s := by
  rw [jsSlice_concat s 0 1 5 (by omega) (by omega),
    jsSlice_concat s 0 5 6 (by omega) (by omega),
    jsSlice_concat s 0 6 7 (by omega) (by omega),
    jsSlice_concat s 0 7 8 (by omega) (by omega),
    jsSlice_concat s 0 8 9 (by omega) (by omega),
    jsSlice_concat s 0 9 12 (by omega) (by omega),
    jsSlice_concat s 0 12 16 (by omega) (by omega)]
  exact take16_eq s h

theorem flags_concat_length (fl : Flags) (hfl : ValidFlags fl) :
    (fl.qr ++ fl.opcode ++ fl.aa ++ fl.tc ++ fl.rd ++ fl.ra ++ fl.zero ++
      fl.rcode).length = 16 := by
  obtain ⟨⟨h1, h2, h3, h4, h5, h6, h7, h8⟩, _⟩ := hfl
  simp [List.length_append, h1, h2, h3, h4, h5, h6, h7, h8]

theorem pkgHeader_eq (tid : Nat) (fl : Flags) (q a au ad : Nat)
    (htid : tid < 65536) (hfl : ValidFlags fl) (hq : q < 65536) (ha : a < 65536)
    (hau : au < 65536) (had : ad < 65536) :
    pkgHeader tid fl q a au ad =
      .ok (u16Bytes tid ++
        u16Bytes (parseBin (fl.qr ++ fl.opcode ++ fl.aa ++ fl.tc ++ fl.rd ++
          fl.ra ++ fl.zero ++ fl.rcode)) ++
        u16Bytes q ++ u16Bytes a ++ u16Bytes au ++ u16Bytes ad) := by
  have hlen := flags_concat_length fl hfl
  have hdigits := hfl.2
  have hparse : parseInt2 (fl.qr ++ fl.opcode ++ fl.aa ++ fl.tc ++ fl.rd ++
      fl.ra ++ fl.zero ++ fl.rcode) =
      some (parseBin (fl.qr ++ fl.opcode ++ fl.aa ++ fl.tc ++ fl.rd ++
        fl.ra ++ fl.zero ++ fl.rcode)) := by
    unfold parseInt2
    rw [List.takeWhile_eq_self_iff.mpr hdigits]
    rw [if_neg (by
      intro hemp
      have := List.isEmpty_iff.mp hemp
      rw [this] at hlen
      simp at hlen)]
  have hfv : parseBin (fl.qr ++ fl.opcode ++ fl.aa ++ fl.tc ++ fl.rd ++
      fl.ra ++ fl.zero ++ fl.rcode) < 65536 := by
    have hb := parseBin_lt (fl.qr ++ fl.opcode ++ fl.aa ++ fl.tc ++ fl.rd ++
      fl.ra ++ fl.zero ++ fl.rcode)
    rw [hlen] at hb
    exact lt_of_lt_of_le hb (by norm_num)
  unfold pkgHeader
  rw [hparse, allocWriteUInt16BE_ok tid htid]
  simp only [except_bind_ok, allocWriteUInt16BEOpt]
  rw [allocWriteUInt16BE_ok _ hfv, allocWriteUInt16BE_ok q hq,
    allocWriteUInt16BE_ok a ha, allocWriteUInt16BE_ok au hau,
    allocWriteUInt16BE_ok ad had]
  simp only [except_bind_ok]
  rfl

/-! ## Name codec lemmas -/

theorem utf8Char_ascii (b : Nat) (h : b < 128) : utf8Char b = [b] := by
  unfold utf8Char
  rw [if_pos h]

theorem utf8Bytes_ascii (s : List Nat) (h : ∀ b ∈ s, b < 128) : utf8Bytes s = s := by
  induction s with
  | nil => rfl
  | cons c t ih =>
    have h1 : utf8Bytes (c :: t) = utf8Char c ++ utf8Bytes t := rfl
    rw [h1, utf8Char_ascii c (h c (List.mem_cons_self _ _)),
      ih (fun b hb => h b (List.mem_cons_of_mem _ hb))]
    simp

theorem nameBytes_cons (l : List Nat) (t : List (List Nat)) :
    nameBytes (l :: t) = (l.length :: l) ++ nameBytes t := rfl

theorem nameBytes_length (ls : List (List Nat)) :
    (nameBytes ls).length = (ls.map (fun l => l.length + 1)).sum := by
  induction ls with
  | nil => rfl
  | cons l t ih =>
    rw [nameBytes_cons, List.length_append, ih]
    simp only [List.map_cons, List.sum_cons, List.length_cons]
    try omega

theorem intercalate_cons2 (l l2 : List Nat) (t2 : List (List Nat)) :
    List.intercalate [46] (l :: l2 :: t2) =
      l ++ [46] ++ List.intercalate [46] (l2 :: t2) := by
  simp [List.intercalate, List.intersperse_cons₂]

theorem intercalate_one (l : List Nat) : List.intercalate [46] [l] = l := by
  simp [List.intercalate]

theorem intercalate_length (ls : List (List Nat)) (hne : ls ≠ []) :
    (List.intercalate [46] ls).length + 1 = (ls.map (fun l => l.length + 1)).sum := by
  induction ls with
  | nil => exact absurd rfl hne
  | cons l t ih =>
    cases t with
    | nil => simp [intercalate_one]
    | cons l2 t2 =>
      rw [intercalate_cons2]
      have h2 := ih (by simp)
      simp only [List.length_append, List.map_cons, List.sum_cons,
        List.length_singleton] at *
      omega

theorem bufWrite_fit (done l tail : List Nat) (hfit : l.length ≤ tail.length)
    (hl : ∀ b ∈ l, b < 128) :
    bufWrite (done ++ tail) done.length l = done ++ l ++ tail.drop l.length := by
  simp only [bufWrite]
  rw [utf8Bytes_ascii l hl, List.length_append,
    show done.length + tail.length - done.length = tail.length by omega,
    List.take_of_length_le hfit, List.take_left]
  have hd : (done ++ tail).drop (done.length + l.length) = tail.drop l.length := by
    rw [← List.drop_drop, List.drop_left]
  rw [hd, List.append_assoc]

theorem jsWriteUInt8_append (done ts : List Nat) (t0 v : Nat) (hv : v ≤ 255) :
    jsWriteUInt8 (done ++ t0 :: ts) done.length v = .ok (done ++ v :: ts) := by
  unfold jsWriteUInt8
  rw [if_pos ⟨by simp only [List.length_append, List.length_cons]; omega, hv⟩]
  rw [List.set_append, if_neg (lt_irrefl _)]
  simp

theorem pkgQuestionLoop_spec : ∀ (labels : List (List Nat)) (done : List Nat),
    (∀ l ∈ labels, l.length ≤ 255 ∧ ∀ b ∈ l, b < 128) →
    pkgQuestionLoop (done ++ List.replicate ((nameBytes labels).length + 1) 0)
        done.length labels =
      .ok (done ++ nameBytes labels ++ [0],
        done.length + (nameBytes labels).length) := by
  intro labels
  induction labels with
  | nil =>
    intro done hv
    simp [pkgQuestionLoop, nameBytes]
  | cons l t ih =>
    intro done hv
    have hl255 := (hv l (List.mem_cons_self _ _)).1
    have hl128 := (hv l (List.mem_cons_self _ _)).2
    have hlen1 : (nameBytes (l :: t)).length = 1 + l.length + (nameBytes t).length := by
      rw [nameBytes_cons, List.length_append, List.length_cons]
      omega
    rw [List.replicate_succ]
    simp only [pkgQuestionLoop]
    rw [jsWriteUInt8_append done (List.replicate ((nameBytes (l :: t)).length) 0)
      0 l.length hl255]
    simp only [except_bind_ok]
    have hsplit : (done ++ l.length :: List.replicate ((nameBytes (l :: t)).length) 0) =
        ((done ++ [l.length]) ++
          List.replicate (l.length + ((nameBytes t).length + 1)) 0) := by
      rw [show (nameBytes (l :: t)).length = l.length + ((nameBytes t).length + 1)
        by omega]
      simp [List.append_assoc]
    rw [hsplit]
    have hwr := bufWrite_fit (done ++ [l.length]) l
      (List.replicate (l.length + ((nameBytes t).length + 1)) 0)
      (by simp only [List.length_replicate]; omega) hl128
    rw [show (done ++ [l.length]).length = done.length + 1 by
      simp [List.length_append]]
      at hwr
    rw [hwr, List.drop_replicate,
      show l.length + ((nameBytes t).length + 1) - l.length =
        (nameBytes t).length + 1 by omega]
    have hre : ((done ++ [l.length]) ++ l) ++
        List.replicate ((nameBytes t).length + 1) 0 =
        (done ++ l.length :: l) ++ List.replicate ((nameBytes t).length + 1) 0 := by
      simp [List.append_assoc]
    rw [hre]
    rw [show done.length + 1 + l.length = (done ++ l.length :: l).length from by
      simp only [List.length_append, List.length_cons]
      omega]
    rw [ih (done ++ l.length :: l) (fun x hx => hv x (List.mem_cons_of_mem _ hx))]
    refine congrArg Except.ok (Prod.ext ?_ ?_)
    · rw [nameBytes_cons]
      simp [List.append_assoc]
    · rw [hlen1]
      simp only [List.length_append, List.length_cons]
      omega

theorem splitOn_ne_nil' (q : List Nat) : q.splitOn 46 ≠ [] := by
  have h : q.splitOn 46 = q.splitOnP (· == 46) := rfl
  rw [h]
  exact List.splitOnP_ne_nil _ _

theorem map_mod128 (l : List Nat) (h : ∀ b ∈ l, b < 128) :
    l.map (fun b => b % 128) = l := by
  induction l with
  | nil => rfl
  | cons c t ih =>
    rw [List.map_cons, Nat.mod_eq_of_lt (h c (List.mem_cons_self _ _)),
      ih (fun b hb => h b (List.mem_cons_of_mem _ hb))]

theorem pkgQuestion_eq (question : List Nat) (type clazz : Nat)
    (hlab : ∀ l ∈ question.splitOn 46, l.length ≤ 255 ∧ ∀ b ∈ l, b < 128)
    (ht : type < 65536) (hc : clazz < 65536) :
    pkgQuestion question type clazz =
      .ok (nameBytes (question.splitOn 46) ++ [0] ++ u16Bytes type ++
        u16Bytes clazz) := by
  have hsne := splitOn_ne_nil' question
  have hlen : (nameBytes (question.splitOn 46)).length = question.length + 1 := by
    have h1 := intercalate_length (question.splitOn 46) hsne
    rw [List.intercalate_splitOn] at h1
    rw [nameBytes_length]
    omega
  unfold pkgQuestion
  rw [show question.length + 2 = (nameBytes (question.splitOn 46)).length + 1
    by omega]
  have hloop := pkgQuestionLoop_spec (question.splitOn 46) [] hlab
  simp only [List.nil_append, List.length_nil, Nat.zero_add] at hloop
  rw [hloop]
  simp only [except_bind_ok]
  have hterm : jsWriteUInt8 (nameBytes (question.splitOn 46) ++ [0])
      (nameBytes (question.splitOn 46)).length 0 =
      .ok (nameBytes (question.splitOn 46) ++ [0]) := by
    have h2 := jsWriteUInt8_append (nameBytes (question.splitOn 46)) [] 0 0
      (by omega)
    simpa using h2
  rw [hterm]
  simp only [except_bind_ok]
  rw [allocWriteUInt16BE_ok type ht, allocWriteUInt16BE_ok clazz hc]
  simp only [except_bind_ok]
  simp [List.append_assoc, pure, Except.pure]

theorem readLabels_nameBytes :
    ∀ (labels : List (List Nat)) (p rest : List Nat),
      (∀ l ∈ labels, 1 ≤ l.length ∧ ∀ b ∈ l, b < 128) →
      readLabels (p ++ (nameBytes labels ++ [0] ++ rest)) p.length =
        (labels, p.length + (nameBytes labels).length + 1) := by
  intro labels
  induction labels with
  | nil =>
    intro p rest hv
    have hb : p ++ (nameBytes [] ++ [0] ++ rest) = p ++ 0 :: rest := by
      simp [nameBytes]
    rw [hb, readLabels_eq]
    rw [if_pos (by simp only [List.length_append, List.length_cons]; omega)]
    rw [show (p ++ 0 :: rest).getD p.length 0 = 0 from by
      rw [getD_at0]
      simp [List.getD_cons_zero]]
    rw [if_pos rfl]
    simp [nameBytes]
  | cons l ls ih =>
    intro p rest hv
    have hl1 := (hv l (List.mem_cons_self _ _)).1
    have hl128 := (hv l (List.mem_cons_self _ _)).2
    have hb : p ++ (nameBytes (l :: ls) ++ [0] ++ rest) =
        p ++ l.length :: (l ++ (nameBytes ls ++ [0] ++ rest)) := by
      rw [nameBytes_cons]
      simp [List.append_assoc]
    rw [hb, readLabels_eq]
    rw [if_pos (by simp only [List.length_append, List.length_cons]; omega)]
    have hgd : (p ++ l.length :: (l ++ (nameBytes ls ++ [0] ++ rest))).getD
        p.length 0 = l.length := by
      rw [getD_at0]
      simp [List.getD_cons_zero]
    rw [hgd, if_neg (by omega)]
    have hsl : jsSlice (p ++ l.length :: (l ++ (nameBytes ls ++ [0] ++ rest)))
        (p.length + 1) (p.length + 1 + l.length) = l := by
      have h2 : p ++ l.length :: (l ++ (nameBytes ls ++ [0] ++ rest)) =
          (p ++ [l.length]) ++ l ++ (nameBytes ls ++ [0] ++ rest) := by
        simp [List.append_assoc]
      rw [h2]
      have h3 := jsSlice_middle (p ++ [l.length]) l (nameBytes ls ++ [0] ++ rest)
      rw [show (p ++ [l.length]).length = p.length + 1 by simp] at h3
      exact h3
    rw [hsl, map_mod128 l hl128]
    have hregroup : p ++ l.length :: (l ++ (nameBytes ls ++ [0] ++ rest)) =
        (p ++ l.length :: l) ++ (nameBytes ls ++ [0] ++ rest) := by
      simp [List.append_assoc]
    rw [hregroup]
    rw [show p.length + 1 + l.length = (p ++ l.length :: l).length from by
      simp only [List.length_append, List.length_cons]
      omega]
    rw [ih (p ++ l.length :: l) rest (fun x hx => hv x (List.mem_cons_of_mem _ hx))]
    refine Prod.ext ?_ ?_
    · rfl
    · show (p ++ l.length :: l).length + (nameBytes ls).length + 1 =
        p.length + (nameBytes (l :: ls)).length + 1
      rw [nameBytes_cons]
      simp only [List.length_append, List.length_cons]
      omega

theorem u16Bytes_length (v : Nat) : (u16Bytes v).length = 2 := rfl

theorem u32Bytes_length (v : Nat) : (u32Bytes v).length = 4 := rfl

theorem encQ_length (q : PQuestion) :
    (encQ q).length = (nameBytes (q.name.splitOn 46)).length + 5 := by
  simp [encQ, List.length_append, u16Bytes_length]

theorem unpkgQuestion_append (q : PQuestion) (p rest : List Nat)
    (hlab : ∀ l ∈ q.name.splitOn 46, 1 ≤ l.length ∧ ∀ b ∈ l, b < 128)
    (ht : q.type < 65536) (hc : q.clazz < 65536) :
    unpkgQuestion (p ++ (encQ q ++ rest)) p.length =
      .ok ⟨q.name.splitOn 46, q.type, q.clazz, p.length,
        p.length + (encQ q).length, q.name⟩ := by
  have hbuf : p ++ (encQ q ++ rest) =
      p ++ (nameBytes (q.name.splitOn 46) ++ [0] ++
        (u16Bytes q.type ++ (u16Bytes q.clazz ++ rest))) := by
    simp [encQ, List.append_assoc]
  simp only [unpkgQuestion, hbuf]
  rw [readLabels_nameBytes (q.name.splitOn 46) p
    (u16Bytes q.type ++ (u16Bytes q.clazz ++ rest)) hlab]
  have hb2 : p ++ (nameBytes (q.name.splitOn 46) ++ [0] ++
      (u16Bytes q.type ++ (u16Bytes q.clazz ++ rest))) =
      (p ++ nameBytes (q.name.splitOn 46) ++ [0]) ++ u16Bytes q.type ++
        (u16Bytes q.clazz ++ rest) := by
    simp [List.append_assoc]
  have hp2len : (p ++ nameBytes (q.name.splitOn 46) ++ [0]).length =
      p.length + (nameBytes (q.name.splitOn 46)).length + 1 := by
    simp only [List.length_append, List.length_singleton]
    try omega
  have hread1 : readUInt16BE (p ++ (nameBytes (q.name.splitOn 46) ++ [0] ++
      (u16Bytes q.type ++ (u16Bytes q.clazz ++ rest))))
      (p.length + (nameBytes (q.name.splitOn 46)).length + 1) = .ok q.type := by
    rw [hb2, ← hp2len]
    exact readUInt16BE_u16 _ _ _ ht
  have hb3 : p ++ (nameBytes (q.name.splitOn 46) ++ [0] ++
      (u16Bytes q.type ++ (u16Bytes q.clazz ++ rest))) =
      (p ++ nameBytes (q.name.splitOn 46) ++ [0] ++ u16Bytes q.type) ++
        u16Bytes q.clazz ++ rest := by
    simp [List.append_assoc]
  have hp3len : (p ++ nameBytes (q.name.splitOn 46) ++ [0] ++
      u16Bytes q.type).length =
      p.length + (nameBytes (q.name.splitOn 46)).length + 1 + 2 := by
    simp [List.length_append, u16Bytes_length]
    omega
  have hread2 : readUInt16BE (p ++ (nameBytes (q.name.splitOn 46) ++ [0] ++
      (u16Bytes q.type ++ (u16Bytes q.clazz ++ rest))))
      (p.length + (nameBytes (q.name.splitOn 46)).length + 1 + 2) = .ok q.clazz := by
    rw [hb3, ← hp3len]
    exact readUInt16BE_u16 _ _ _ hc
  rw [hread1]
  simp only [except_bind_ok]
  rw [hread2]
  simp only [except_bind_ok]
  simp only [pure, Except.pure, Except.ok.injEq, UQuestion.mk.injEq]
  refine ⟨trivial, trivial, trivial, trivial, ?_, List.intercalate_splitOn q.name 46⟩
  rw [encQ_length]
  omega

theorem encRR_length (r : EncRR) :
    (encRR r).length =
      (nameBytes (r.name.splitOn 46)).length + 11 + r.rd.length := by
  simp only [encRR, List.length_append, u16Bytes_length, u32Bytes_length,
    List.length_singleton]
  try omega

theorem and192_eq_zero : ∀ L : Nat, L < 64 → L &&& 192 = 0 := by decide

theorem unpkgRR_append (r : EncRR) (p rest : List Nat)
    (hlab : ∀ l ∈ r.name.splitOn 46, 1 ≤ l.length ∧ l.length ≤ 63 ∧
      ∀ b ∈ l, b < 128)
    (ht : r.type < 65536) (hc : r.clazz < 65536) (httl : r.ttl < 4294967296)
    (hrdl : r.rd.length < 65536)
    (htype1 : r.type = 1 → r.rd.length = 0 ∨ 4 ≤ r.rd.length) :
    unpkgRR (p ++ (encRR r ++ rest)) p.length =
      .ok ⟨r.name.splitOn 46, r.type, r.clazz, r.ttl, r.rd.length,
        (if r.rd = [] then none else some r.rd),
        p.length + (encRR r).length⟩ := by
  obtain ⟨l0, ls0, hsplit⟩ : ∃ l0 ls0, r.name.splitOn 46 = l0 :: ls0 := by
    cases hs : r.name.splitOn 46 with
    | nil => exact absurd hs (splitOn_ne_nil' r.name)
    | cons a b => exact ⟨a, b, rfl⟩
  have hmem0 : l0 ∈ List.splitOn 46 r.name := by
    rw [hsplit]
    exact List.mem_cons_self _ _
  have hl063 : l0.length ≤ 63 := (hlab l0 hmem0).2.1
  have hbuf : p ++ (encRR r ++ rest) =
      p ++ (nameBytes (r.name.splitOn 46) ++ [0] ++
        (u16Bytes r.type ++ (u16Bytes r.clazz ++ (u32Bytes r.ttl ++
          (u16Bytes r.rd.length ++ (r.rd ++ rest)))))) := by
    simp [encRR, List.append_assoc]
  have hhead : p ++ (nameBytes (r.name.splitOn 46) ++ [0] ++
      (u16Bytes r.type ++ (u16Bytes r.clazz ++ (u32Bytes r.ttl ++
        (u16Bytes r.rd.length ++ (r.rd ++ rest)))))) =
      p ++ l0.length :: ((l0 ++ nameBytes ls0) ++ ([0] ++
        (u16Bytes r.type ++ (u16Bytes r.clazz ++ (u32Bytes r.ttl ++
          (u16Bytes r.rd.length ++ (r.rd ++ rest))))))) := by
    rw [hsplit, nameBytes_cons]
    simp [List.append_assoc]
  have hread0 : readUInt8 (p ++ (nameBytes (r.name.splitOn 46) ++ [0] ++
      (u16Bytes r.type ++ (u16Bytes r.clazz ++ (u32Bytes r.ttl ++
        (u16Bytes r.rd.length ++ (r.rd ++ rest))))))) p.length =
      .ok l0.length := by
    rw [hhead]
    exact readUInt8_append p _ l0.length
  have hmask : ¬(l0.length &&& 192 = 192) := by
    rw [and192_eq_zero l0.length (by omega)]
    decide
  simp only [unpkgRR, hbuf]
  rw [hread0]
  simp only [except_bind_ok]
  rw [if_neg hmask]
  rw [readLabels_nameBytes (r.name.splitOn 46) p _
    (fun l hl => ⟨(hlab l hl).1, (hlab l hl).2.2⟩)]
  simp only [except_bind_ok]
  have hp2 : p ++ (nameBytes (r.name.splitOn 46) ++ [0] ++
      (u16Bytes r.type ++ (u16Bytes r.clazz ++ (u32Bytes r.ttl ++
        (u16Bytes r.rd.length ++ (r.rd ++ rest)))))) =
      (p ++ nameBytes (r.name.splitOn 46) ++ [0]) ++ u16Bytes r.type ++
        (u16Bytes r.clazz ++ (u32Bytes r.ttl ++
          (u16Bytes r.rd.length ++ (r.rd ++ rest)))) := by
    simp [List.append_assoc]
  have hp2len : (p ++ nameBytes (r.name.splitOn 46) ++ [0]).length =
      p.length + (nameBytes (r.name.splitOn 46)).length + 1 := by
    simp only [List.length_append, List.length_singleton]
    try omega
  have hread1 : readUInt16BE (p ++ (nameBytes (r.name.splitOn 46) ++ [0] ++
      (u16Bytes r.type ++ (u16Bytes r.clazz ++ (u32Bytes r.ttl ++
        (u16Bytes r.rd.length ++ (r.rd ++ rest)))))))
      (p.length + (nameBytes (r.name.splitOn 46)).length + 1) = .ok r.type := by
    rw [hp2, ← hp2len]
    exact readUInt16BE_u16 _ _ _ ht
  rw [hread1]
  simp only [except_bind_ok]
  have hp3 : p ++ (nameBytes (r.name.splitOn 46) ++ [0] ++
      (u16Bytes r.type ++ (u16Bytes r.clazz ++ (u32Bytes r.ttl ++
        (u16Bytes r.rd.length ++ (r.rd ++ rest)))))) =
      (p ++ nameBytes (r.name.splitOn 46) ++ [0] ++ u16Bytes r.type) ++
        u16Bytes r.clazz ++ (u32Bytes r.ttl ++
          (u16Bytes r.rd.length ++ (r.rd ++ rest))) := by
    simp [List.append_assoc]
  have hp3len : (p ++ nameBytes (r.name.splitOn 46) ++ [0] ++
      u16Bytes r.type).length =
      p.length + (nameBytes (r.name.splitOn 46)).length + 1 + 2 := by
    simp only [List.length_append, List.length_singleton, u16Bytes_length]
    try omega
  have hread2 : readUInt16BE (p ++ (nameBytes (r.name.splitOn 46) ++ [0] ++
      (u16Bytes r.type ++ (u16Bytes r.clazz ++ (u32Bytes r.ttl ++
        (u16Bytes r.rd.length ++ (r.rd ++ rest)))))))
      (p.length + (nameBytes (r.name.splitOn 46)).length + 1 + 2) =
      .ok r.clazz := by
    rw [hp3, ← hp3len]
    exact readUInt16BE_u16 _ _ _ hc
  rw [hread2]
  simp only [except_bind_ok]
  have hp4 : p ++ (nameBytes (r.name.splitOn 46) ++ [0] ++
      (u16Bytes r.type ++ (u16Bytes r.clazz ++ (u32Bytes r.ttl ++
        (u16Bytes r.rd.length ++ (r.rd ++ rest)))))) =
      (p ++ nameBytes (r.name.splitOn 46) ++ [0] ++ u16Bytes r.type ++
        u16Bytes r.clazz) ++ u32Bytes r.ttl ++
          (u16Bytes r.rd.length ++ (r.rd ++ rest)) := by
    simp [List.append_assoc]
  have hp4len : (p ++ nameBytes (r.name.splitOn 46) ++ [0] ++ u16Bytes r.type ++
      u16Bytes r.clazz).length =
      p.length + (nameBytes (r.name.splitOn 46)).length + 1 + 4 := by
    simp only [List.length_append, List.length_singleton, u16Bytes_length]
    try omega
  have hread3 : readUInt32BE (p ++ (nameBytes (r.name.splitOn 46) ++ [0] ++
      (u16Bytes r.type ++ (u16Bytes r.clazz ++ (u32Bytes r.ttl ++
        (u16Bytes r.rd.length ++ (r.rd ++ rest)))))))
      (p.length + (nameBytes (r.name.splitOn 46)).length + 1 + 4) =
      .ok r.ttl := by
    rw [hp4, ← hp4len]
    exact readUInt32BE_u32 _ _ _ httl
  rw [hread3]
  simp only [except_bind_ok]
  have hp5 : p ++ (nameBytes (r.name.splitOn 46) ++ [0] ++
      (u16Bytes r.type ++ (u16Bytes r.clazz ++ (u32Bytes r.ttl ++
        (u16Bytes r.rd.length ++ (r.rd ++ rest)))))) =
      (p ++ nameBytes (r.name.splitOn 46) ++ [0] ++ u16Bytes r.type ++
        u16Bytes r.clazz ++ u32Bytes r.ttl) ++ u16Bytes r.rd.length ++
          (r.rd ++ rest) := by
    simp [List.append_assoc]
  have hp5len : (p ++ nameBytes (r.name.splitOn 46) ++ [0] ++ u16Bytes r.type ++
      u16Bytes r.clazz ++ u32Bytes r.ttl).length =
      p.length + (nameBytes (r.name.splitOn 46)).length + 1 + 8 := by
    simp only [List.length_append, List.length_singleton, u16Bytes_length,
      u32Bytes_length]
    try omega
  have hread4 : readUInt16BE (p ++ (nameBytes (r.name.splitOn 46) ++ [0] ++
      (u16Bytes r.type ++ (u16Bytes r.clazz ++ (u32Bytes r.ttl ++
        (u16Bytes r.rd.length ++ (r.rd ++ rest)))))))
      (p.length + (nameBytes (r.name.splitOn 46)).length + 1 + 8) =
      .ok r.rd.length := by
    rw [hp5, ← hp5len]
    exact readUInt16BE_u16 _ _ _ hrdl
  rw [hread4]
  simp only [except_bind_ok]
  have hp6 : p ++ (nameBytes (r.name.splitOn 46) ++ [0] ++
      (u16Bytes r.type ++ (u16Bytes r.clazz ++ (u32Bytes r.ttl ++
        (u16Bytes r.rd.length ++ (r.rd ++ rest)))))) =
      (p ++ nameBytes (r.name.splitOn 46) ++ [0] ++ u16Bytes r.type ++
        u16Bytes r.clazz ++ u32Bytes r.ttl ++ u16Bytes r.rd.length) ++
          r.rd ++ rest := by
    simp [List.append_assoc]
  have hp6len : (p ++ nameBytes (r.name.splitOn 46) ++ [0] ++ u16Bytes r.type ++
      u16Bytes r.clazz ++ u32Bytes r.ttl ++ u16Bytes r.rd.length).length =
      p.length + (nameBytes (r.name.splitOn 46)).length + 1 + 10 := by
    simp only [List.length_append, List.length_singleton, u16Bytes_length,
      u32Bytes_length]
    try omega
  have hslice : jsSlice (p ++ (nameBytes (r.name.splitOn 46) ++ [0] ++
      (u16Bytes r.type ++ (u16Bytes r.clazz ++ (u32Bytes r.ttl ++
        (u16Bytes r.rd.length ++ (r.rd ++ rest)))))))
      (p.length + (nameBytes (r.name.splitOn 46)).length + 1 + 10)
      (p.length + (nameBytes (r.name.splitOn 46)).length + 1 + 10 +
        r.rd.length) = r.rd := by
    rw [hp6, ← hp6len]
    have h6 := jsSlice_middle (p ++ nameBytes (r.name.splitOn 46) ++ [0] ++
      u16Bytes r.type ++ u16Bytes r.clazz ++ u32Bytes r.ttl ++
      u16Bytes r.rd.length) r.rd rest
    exact h6
  by_cases hrd0 : 0 < r.rd.length
  · rw [if_pos hrd0]
    rw [show p.length + (nameBytes (r.name.splitOn 46)).length + 1 + 2 + 8 =
      p.length + (nameBytes (r.name.splitOn 46)).length + 1 + 10 by omega]
    rw [hslice]
    rw [if_neg (by
      rintro ⟨h1, h2⟩
      rcases htype1 h1 with h3 | h3 <;> omega)]
    simp only [Except.ok.injEq, URR.mk.injEq]
    refine ⟨trivial, trivial, trivial, trivial, trivial, ?_, ?_⟩
    · rw [if_neg (by
        intro hnil
        rw [hnil] at hrd0
        simp at hrd0)]
    · rw [encRR_length]
      omega
  · rw [if_neg hrd0]
    have hrdnil : r.rd = [] := by
      cases hr : r.rd with
      | nil => rfl
      | cons a b =>
        rw [hr] at hrd0
        simp at hrd0
    simp only [Except.ok.injEq, URR.mk.injEq]
    refine ⟨trivial, trivial, trivial, trivial, trivial, ?_, ?_⟩
    · rw [if_pos hrdnil]
    · rw [encRR_length]
      omega

/-! ## Section lists -/

theorem pkgQuestionList_eq (qs : List PQuestion)
    (hv : ∀ q ∈ qs, ValidQuestion q) :
    pkgQuestionList qs = .ok (qs.map encQ) := by
  induction qs with
  | nil => rfl
  | cons q t ih =>
    obtain ⟨⟨hname, h253⟩, ht, hc⟩ := hv q (List.mem_cons_self _ _)
    simp only [pkgQuestionList]
    rw [pkgQuestion_eq q.name q.type q.clazz
      (fun l hl => ⟨le_trans (hname l hl).2.1 (by omega), (hname l hl).2.2⟩) ht hc]
    simp only [except_bind_ok]
    rw [ih (fun x hx => hv x (List.mem_cons_of_mem _ hx))]
    simp only [except_bind_ok]
    rfl

theorem pkgRR_single (r : EncRR) (hv : ValidRR r) :
    pkgRR [⟨r.name, r.type, r.clazz⟩] r.ttl r.rd = .ok (encRR r) := by
  obtain ⟨⟨hname, h253⟩, ht, hc, httl, hrdl, hbytes⟩ := hv
  simp only [pkgRR, pkgQuestionList]
  rw [show pkgQuestion (⟨r.name, r.type, r.clazz⟩ : PQuestion).name
      (⟨r.name, r.type, r.clazz⟩ : PQuestion).type
      (⟨r.name, r.type, r.clazz⟩ : PQuestion).clazz =
      pkgQuestion r.name r.type r.clazz from rfl]
  rw [pkgQuestion_eq r.name r.type r.clazz
    (fun l hl => ⟨le_trans (hname l hl).2.1 (by omega), (hname l hl).2.2⟩) ht hc]
  simp only [except_bind_ok]
  rw [allocWriteUInt32BE_ok r.ttl httl, allocWriteUInt16BE_ok r.rd.length hrdl]
  simp only [except_bind_ok]
  simp [encRR, List.append_assoc, pure, Except.pure]

theorem pkgRRList_eq (rs : List EncRR) (hv : ∀ r ∈ rs, ValidRR r) :
    pkgRRList rs = .ok (rs.map encRR) := by
  induction rs with
  | nil => rfl
  | cons r t ih =>
    simp only [pkgRRList]
    rw [pkgRR_single r (hv r (List.mem_cons_self _ _))]
    simp only [except_bind_ok]
    rw [ih (fun x hx => hv x (List.mem_cons_of_mem _ hx))]
    simp only [except_bind_ok]
    rfl

theorem encQList_cons (q : PQuestion) (t : List PQuestion) :
    encQList (q :: t) = encQ q ++ encQList t := by
  simp [encQList]

theorem encRRList_cons (r : EncRR) (t : List EncRR) :
    encRRList (r :: t) = encRR r ++ encRRList t := by
  simp [encRRList]

theorem decodeQuestions_append :
    ∀ (qs : List PQuestion) (p rest : List Nat),
      (∀ q ∈ qs, ValidQuestion q) →
      ∃ uqs, decodeQuestions (p ++ (encQList qs ++ rest)) qs.length p.length =
          .ok (uqs, p.length + (encQList qs).length) ∧
        List.Forall₂ QMatch uqs qs := by
  intro qs
  induction qs with
  | nil =>
    intro p rest hv
    refine ⟨[], ?_, List.Forall₂.nil⟩
    simp [decodeQuestions, encQList]
  | cons q t ih =>
    intro p rest hv
    obtain ⟨⟨hname, h253⟩, ht, hc⟩ := hv q (List.mem_cons_self _ _)
    obtain ⟨uqs, hdec, hmatch⟩ := ih (p ++ encQ q) rest
      (fun x hx => hv x (List.mem_cons_of_mem _ hx))
    refine ⟨⟨q.name.splitOn 46, q.type, q.clazz, p.length,
      p.length + (encQ q).length, q.name⟩ :: uqs, ?_,
      List.Forall₂.cons ⟨rfl, rfl, rfl⟩ hmatch⟩
    have hbuf : p ++ (encQList (q :: t) ++ rest) =
        p ++ (encQ q ++ (encQList t ++ rest)) := by
      rw [encQList_cons]
      simp [List.append_assoc]
    simp only [List.length_cons, decodeQuestions, hbuf]
    rw [unpkgQuestion_append q p (encQList t ++ rest)
      (fun l hl => ⟨(hname l hl).1, (hname l hl).2.2⟩) ht hc]
    simp only [except_bind_ok]
    have hregroup : p ++ (encQ q ++ (encQList t ++ rest)) =
        (p ++ encQ q) ++ (encQList t ++ rest) := by
      simp [List.append_assoc]
    rw [hregroup]
    rw [show p.length + (encQ q).length = (p ++ encQ q).length from by
      simp [List.length_append]]
    rw [hdec]
    simp only [except_bind_ok]
    simp only [pure, Except.pure, Except.ok.injEq, Prod.mk.injEq,
      List.cons.injEq, List.length_append, encQList_cons]
    try first
    | omega
    | exact ⟨trivial, by omega⟩
    | (constructor <;> first | trivial | omega)

theorem decodeRRs_append :
    ∀ (rs : List EncRR) (p rest : List Nat),
      (∀ r ∈ rs, ValidRRD r) →
      ∃ urs, decodeRRs (p ++ (encRRList rs ++ rest)) rs.length p.length =
          .ok (urs, p.length + (encRRList rs).length) ∧
        List.Forall₂ RRMatch urs rs := by
  intro rs
  induction rs with
  | nil =>
    intro p rest hv
    refine ⟨[], ?_, List.Forall₂.nil⟩
    simp [decodeRRs, encRRList]
  | cons r t ih =>
    intro p rest hv
    obtain ⟨⟨⟨hname, h253⟩, ht, hc, httl, hrdl, hbytes⟩, htype1⟩ :=
      hv r (List.mem_cons_self _ _)
    obtain ⟨urs, hdec, hmatch⟩ := ih (p ++ encRR r) rest
      (fun x hx => hv x (List.mem_cons_of_mem _ hx))
    refine ⟨⟨r.name.splitOn 46, r.type, r.clazz, r.ttl, r.rd.length,
      (if r.rd = [] then none else some r.rd),
      p.length + (encRR r).length⟩ :: urs, ?_,
      List.Forall₂.cons ⟨List.intercalate_splitOn r.name 46, rfl, rfl, rfl, rfl⟩
        hmatch⟩
    have hbuf : p ++ (encRRList (r :: t) ++ rest) =
        p ++ (encRR r ++ (encRRList t ++ rest)) := by
      rw [encRRList_cons]
      simp [List.append_assoc]
    simp only [List.length_cons, decodeRRs, hbuf]
    rw [unpkgRR_append r p (encRRList t ++ rest) hname ht hc httl hrdl htype1]
    simp only [except_bind_ok]
    have hregroup : p ++ (encRR r ++ (encRRList t ++ rest)) =
        (p ++ encRR r) ++ (encRRList t ++ rest) := by
      simp [List.append_assoc]
    rw [hregroup]
    rw [show p.length + (encRR r).length = (p ++ encRR r).length from by
      simp [List.length_append]]
    rw [hdec]
    simp only [except_bind_ok]
    simp only [pure, Except.pure, Except.ok.injEq, Prod.mk.injEq,
      List.cons.injEq, List.length_append, encRRList_cons]
    try first
    | omega
    | exact ⟨trivial, by omega⟩
    | (constructor <;> first | trivial | omega)

theorem length_eq_four {α : Type} {l : List α} (h : l.length = 4) :
    ∃ a b c d, l = [a, b, c, d] := by
  rcases l with _ | ⟨a, _ | ⟨b, _ | ⟨c, _ | ⟨d, _ | ⟨e, t⟩⟩⟩⟩⟩
  · simp at h
  · simp at h
  · simp at h
  · simp at h
  · exact ⟨a, b, c, d, rfl⟩
  · simp at h
    try omega

theorem length_eq_three {α : Type} {l : List α} (h : l.length = 3) :
    ∃ a b c, l = [a, b, c] := by
  rcases l with _ | ⟨a, _ | ⟨b, _ | ⟨c, _ | ⟨d, t⟩⟩⟩⟩
  · simp at h
  · simp at h
  · simp at h
  · exact ⟨a, b, c, rfl⟩
  · simp at h
    try omega

theorem flags_slices (f1 f2 f3 f4 f5 f6 f7 f8 : List Char)
    (h1 : f1.length = 1) (h2 : f2.length = 4) (h3 : f3.length = 1)
    (h4 : f4.length = 1) (h5 : f5.length = 1) (h6 : f6.length = 1)
    (h7 : f7.length = 3) (h8 : f8.length = 4) :
    jsSlice (f1 ++ f2 ++ f3 ++ f4 ++ f5 ++ f6 ++ f7 ++ f8) 0 1 = f1 ∧
    jsSlice (f1 ++ f2 ++ f3 ++ f4 ++ f5 ++ f6 ++ f7 ++ f8) 1 5 = f2 ∧
    jsSlice (f1 ++ f2 ++ f3 ++ f4 ++ f5 ++ f6 ++ f7 ++ f8) 5 6 = f3 ∧
    jsSlice (f1 ++ f2 ++ f3 ++ f4 ++ f5 ++ f6 ++ f7 ++ f8) 6 7 = f4 ∧
    jsSlice (f1 ++ f2 ++ f3 ++ f4 ++ f5 ++ f6 ++ f7 ++ f8) 7 8 = f5 ∧
    jsSlice (f1 ++ f2 ++ f3 ++ f4 ++ f5 ++ f6 ++ f7 ++ f8) 8 9 = f6 ∧
    jsSlice (f1 ++ f2 ++ f3 ++ f4 ++ f5 ++ f6 ++ f7 ++ f8) 9 12 = f7 ∧
    jsSlice (f1 ++ f2 ++ f3 ++ f4 ++ f5 ++ f6 ++ f7 ++ f8) 12 16 = f8 := by
  obtain ⟨a1, rfl⟩ := List.length_eq_one.mp h1
  obtain ⟨b1, b2, b3, b4, rfl⟩ := length_eq_four h2
  obtain ⟨c1, rfl⟩ := List.length_eq_one.mp h3
  obtain ⟨d1, rfl⟩ := List.length_eq_one.mp h4
  obtain ⟨e1, rfl⟩ := List.length_eq_one.mp h5
  obtain ⟨g1, rfl⟩ := List.length_eq_one.mp h6
  obtain ⟨i1, i2, i3, rfl⟩ := length_eq_three h7
  obtain ⟨j1, j2, j3, j4, rfl⟩ := length_eq_four h8
  refine ⟨?_, ?_, ?_, ?_, ?_, ?_, ?_, ?_⟩ <;> rfl

theorem unpkgHeader_enc (tid : Nat) (fl : Flags) (q a au ad : Nat)
    (htid : tid < 65536) (hfl : ValidFlags fl) (hq : q < 65536) (ha : a < 65536)
    (hau : au < 65536) (had : ad < 65536) (rest : List Nat) :
    unpkgHeader (jsSlice ((u16Bytes tid ++
        u16Bytes (parseBin (fl.qr ++ fl.opcode ++ fl.aa ++ fl.tc ++ fl.rd ++
          fl.ra ++ fl.zero ++ fl.rcode)) ++
        u16Bytes q ++ u16Bytes a ++ u16Bytes au ++ u16Bytes ad) ++ rest) 0 12) =
      .ok ⟨tid, fl, q, a, au, ad⟩ := by
  have hlen16 := flags_concat_length fl hfl
  have hdigits := hfl.2
  obtain ⟨⟨hw1, hw2, hw3, hw4, hw5, hw6, hw7, hw8⟩, _⟩ := hfl
  have hfv : parseBin (fl.qr ++ fl.opcode ++ fl.aa ++ fl.tc ++ fl.rd ++
      fl.ra ++ fl.zero ++ fl.rcode) < 65536 := by
    have hb := parseBin_lt (fl.qr ++ fl.opcode ++ fl.aa ++ fl.tc ++ fl.rd ++
      fl.ra ++ fl.zero ++ fl.rcode)
    rw [hlen16] at hb
    exact lt_of_lt_of_le hb (by norm_num)
  have hb12 : jsSlice ((u16Bytes tid ++
      u16Bytes (parseBin (fl.qr ++ fl.opcode ++ fl.aa ++ fl.tc ++ fl.rd ++
        fl.ra ++ fl.zero ++ fl.rcode)) ++
      u16Bytes q ++ u16Bytes a ++ u16Bytes au ++ u16Bytes ad) ++ rest) 0 12 =
      u16Bytes tid ++
        u16Bytes (parseBin (fl.qr ++ fl.opcode ++ fl.aa ++ fl.tc ++ fl.rd ++
          fl.ra ++ fl.zero ++ fl.rcode)) ++
        u16Bytes q ++ u16Bytes a ++ u16Bytes au ++ u16Bytes ad := by
    unfold jsSlice
    rw [List.drop_zero]
    refine List.take_left' ?_
    simp [List.length_append, u16Bytes_length]
  rw [hb12]
  have hlist : u16Bytes tid ++
      u16Bytes (parseBin (fl.qr ++ fl.opcode ++ fl.aa ++ fl.tc ++ fl.rd ++
        fl.ra ++ fl.zero ++ fl.rcode)) ++
      u16Bytes q ++ u16Bytes a ++ u16Bytes au ++ u16Bytes ad =
      [tid / 256, tid % 256,
       parseBin (fl.qr ++ fl.opcode ++ fl.aa ++ fl.tc ++ fl.rd ++
         fl.ra ++ fl.zero ++ fl.rcode) / 256,
       parseBin (fl.qr ++ fl.opcode ++ fl.aa ++ fl.tc ++ fl.rd ++
         fl.ra ++ fl.zero ++ fl.rcode) % 256,
       q / 256, q % 256, a / 256, a % 256, au / 256, au % 256,
       ad / 256, ad % 256] := by
    simp [u16Bytes]
  rw [hlist, unpkgHeader_ok _ (by simp)]
  have hfb : padStart 16 '0' (binDigits (parseBin (fl.qr ++ fl.opcode ++
      fl.aa ++ fl.tc ++ fl.rd ++ fl.ra ++ fl.zero ++ fl.rcode))) =
      fl.qr ++ fl.opcode ++ fl.aa ++ fl.tc ++ fl.rd ++ fl.ra ++ fl.zero ++
        fl.rcode := by
    have hps := padStart_binDigits (fl.qr ++ fl.opcode ++ fl.aa ++ fl.tc ++
      fl.rd ++ fl.ra ++ fl.zero ++ fl.rcode)
      (by
        intro hnil
        rw [hnil] at hlen16
        simp at hlen16)
      hdigits
    rw [hlen16] at hps
    exact hps
  obtain ⟨e1, e2, e3, e4, e5, e6, e7, e8⟩ :=
    flags_slices fl.qr fl.opcode fl.aa fl.tc fl.rd fl.ra fl.zero fl.rcode
      hw1 hw2 hw3 hw4 hw5 hw6 hw7 hw8
  simp only [Except.ok.injEq, Header.mk.injEq]
  refine ⟨?_, ?_, ?_, ?_, ?_, ?_⟩
  · simp only [List.getD_cons_succ, List.getD_cons_zero]
    omega
  · show headerFlagsOf ([tid / 256, tid % 256,
      parseBin (fl.qr ++ fl.opcode ++ fl.aa ++ fl.tc ++ fl.rd ++
        fl.ra ++ fl.zero ++ fl.rcode) / 256,
      parseBin (fl.qr ++ fl.opcode ++ fl.aa ++ fl.tc ++ fl.rd ++
        fl.ra ++ fl.zero ++ fl.rcode) % 256,
      q / 256, q % 256, a / 256, a % 256, au / 256, au % 256,
      ad / 256, ad % 256].getD 2 0 * 256 +
      [tid / 256, tid % 256,
      parseBin (fl.qr ++ fl.opcode ++ fl.aa ++ fl.tc ++ fl.rd ++
        fl.ra ++ fl.zero ++ fl.rcode) / 256,
      parseBin (fl.qr ++ fl.opcode ++ fl.aa ++ fl.tc ++ fl.rd ++
        fl.ra ++ fl.zero ++ fl.rcode) % 256,
      q / 256, q % 256, a / 256, a % 256, au / 256, au % 256,
      ad / 256, ad % 256].getD 3 0) = fl
    have hgd : [tid / 256, tid % 256,
        parseBin (fl.qr ++ fl.opcode ++ fl.aa ++ fl.tc ++ fl.rd ++
          fl.ra ++ fl.zero ++ fl.rcode) / 256,
        parseBin (fl.qr ++ fl.opcode ++ fl.aa ++ fl.tc ++ fl.rd ++
          fl.ra ++ fl.zero ++ fl.rcode) % 256,
        q / 256, q % 256, a / 256, a % 256, au / 256, au % 256,
        ad / 256, ad % 256].getD 2 0 * 256 +
        [tid / 256, tid % 256,
        parseBin (fl.qr ++ fl.opcode ++ fl.aa ++ fl.tc ++ fl.rd ++
          fl.ra ++ fl.zero ++ fl.rcode) / 256,
        parseBin (fl.qr ++ fl.opcode ++ fl.aa ++ fl.tc ++ fl.rd ++
          fl.ra ++ fl.zero ++ fl.rcode) % 256,
        q / 256, q % 256, a / 256, a % 256, au / 256, au % 256,
        ad / 256, ad % 256].getD 3 0 =
        parseBin (fl.qr ++ fl.opcode ++ fl.aa ++ fl.tc ++ fl.rd ++
          fl.ra ++ fl.zero ++ fl.rcode) := by
      simp only [List.getD_cons_succ, List.getD_cons_zero]
      omega
    rw [hgd]
    unfold headerFlagsOf
    rw [hfb]
    obtain ⟨fq, fo, fa, ftc, frd, fra, fz, frc⟩ := fl
    simp only at e1 e2 e3 e4 e5 e6 e7 e8
    simp only [Flags.mk.injEq]
    exact ⟨e1, e2, e3, e4, e5, e6, e7, e8⟩
  · simp only [List.getD_cons_succ, List.getD_cons_zero]
    omega
  · simp only [List.getD_cons_succ, List.getD_cons_zero]
    omega
  · simp only [List.getD_cons_succ, List.getD_cons_zero]
    omega
  · simp only [List.getD_cons_succ, List.getD_cons_zero]
    omega

theorem hdrBytes_length (m : EncMessage) : (hdrBytes m).length = 12 := by
  simp [hdrBytes, List.length_append, u16Bytes_length]

theorem pkgdns_eq (m : EncMessage) (hv : ValidMessage m) :
    pkgdns m = .ok (hdrBytes m ++ encQList m.questions ++
      encRRList m.answers ++ encRRList m.authorities ++
      encRRList m.additionals) := by
  obtain ⟨htid, hfl, hqc, hac, hauc, hadc, hqv, hav, hauv, hadv⟩ := hv
  simp only [pkgdns]
  rw [pkgHeader_eq m.transactionId m.flags _ _ _ _ htid hfl hqc hac hauc hadc]
  simp only [except_bind_ok]
  rw [pkgQuestionList_eq m.questions hqv]
  simp only [except_bind_ok]
  rw [pkgRRList_eq m.answers hav]
  simp only [except_bind_ok]
  rw [pkgRRList_eq m.authorities hauv]
  simp only [except_bind_ok]
  rw [pkgRRList_eq m.additionals hadv]
  simp only [except_bind_ok]
  rfl

theorem unpkgdns_enc (m : EncMessage) (hv : ValidMessageAmended m) :
    ∃ uqs uas uaus uads,
      unpkgdns (hdrBytes m ++ encQList m.questions ++ encRRList m.answers ++
        encRRList m.authorities ++ encRRList m.additionals) =
        .ok ⟨⟨m.transactionId, m.flags, m.questions.length, m.answers.length,
          m.authorities.length, m.additionals.length⟩, uqs, uas, uaus, uads⟩ ∧
      List.Forall₂ QMatch uqs m.questions ∧
      List.Forall₂ RRMatch uas m.answers ∧
      List.Forall₂ RRMatch uaus m.authorities ∧
      List.Forall₂ RRMatch uads m.additionals := by
  obtain ⟨⟨htid, hfl, hqc, hac, hauc, hadc, hqv, hav, hauv, hadv⟩,
    havD, hauvD, hadvD⟩ := hv
  obtain ⟨uqs, hdq, hmq⟩ := decodeQuestions_append m.questions (hdrBytes m)
    (encRRList m.answers ++ (encRRList m.authorities ++
      encRRList m.additionals)) hqv
  obtain ⟨uas, hda, hma⟩ := decodeRRs_append m.answers
    (hdrBytes m ++ encQList m.questions)
    (encRRList m.authorities ++ encRRList m.additionals) havD
  obtain ⟨uaus, hdau, hmau⟩ := decodeRRs_append m.authorities
    (hdrBytes m ++ encQList m.questions ++ encRRList m.answers)
    (encRRList m.additionals) hauvD
  obtain ⟨uads, hdad, hmad⟩ := decodeRRs_append m.additionals
    (hdrBytes m ++ encQList m.questions ++ encRRList m.answers ++
      encRRList m.authorities) [] hadvD
  refine ⟨uqs, uas, uaus, uads, ?_, hmq, hma, hmau, hmad⟩
  have hhdr : unpkgHeader (jsSlice (hdrBytes m ++ encQList m.questions ++
      encRRList m.answers ++ encRRList m.authorities ++
      encRRList m.additionals) 0 12) =
      .ok ⟨m.transactionId, m.flags, m.questions.length, m.answers.length,
        m.authorities.length, m.additionals.length⟩ := by
    have he := unpkgHeader_enc m.transactionId m.flags m.questions.length
      m.answers.length m.authorities.length m.additionals.length
      htid hfl hqc hac hauc hadc
      (encQList m.questions ++ (encRRList m.answers ++
        (encRRList m.authorities ++ encRRList m.additionals)))
    have hshape : (u16Bytes m.transactionId ++
        u16Bytes (parseBin (m.flags.qr ++ m.flags.opcode ++ m.flags.aa ++
          m.flags.tc ++ m.flags.rd ++ m.flags.ra ++ m.flags.zero ++
          m.flags.rcode)) ++
        u16Bytes m.questions.length ++ u16Bytes m.answers.length ++
        u16Bytes m.authorities.length ++ u16Bytes m.additionals.length) ++
        (encQList m.questions ++ (encRRList m.answers ++
          (encRRList m.authorities ++ encRRList m.additionals))) =
        hdrBytes m ++ encQList m.questions ++ encRRList m.answers ++
          encRRList m.authorities ++ encRRList m.additionals := by
      simp [hdrBytes, List.append_assoc]
    rw [hshape] at he
    exact he
  simp only [unpkgdns]
  rw [hhdr]
  simp only [except_bind_ok]
  rw [show (12 : Nat) = (hdrBytes m).length from (hdrBytes_length m).symm]
  rw [show hdrBytes m ++ encQList m.questions ++ encRRList m.answers ++
      encRRList m.authorities ++ encRRList m.additionals =
      hdrBytes m ++ (encQList m.questions ++ (encRRList m.answers ++
        (encRRList m.authorities ++ encRRList m.additionals))) from by
    simp [List.append_assoc]]
  rw [hdq]
  simp only [except_bind_ok]
  rw [show hdrBytes m ++ (encQList m.questions ++ (encRRList m.answers ++
      (encRRList m.authorities ++ encRRList m.additionals))) =
      (hdrBytes m ++ encQList m.questions) ++ (encRRList m.answers ++
        (encRRList m.authorities ++ encRRList m.additionals)) from by
    simp [List.append_assoc]]
  rw [show (hdrBytes m).length + (encQList m.questions).length =
      (hdrBytes m ++ encQList m.questions).length from by
    simp only [List.length_append]
    try omega]
  rw [hda]
  simp only [except_bind_ok]
  rw [show (hdrBytes m ++ encQList m.questions) ++ (encRRList m.answers ++
      (encRRList m.authorities ++ encRRList m.additionals)) =
      (hdrBytes m ++ encQList m.questions ++ encRRList m.answers) ++
        (encRRList m.authorities ++ encRRList m.additionals) from by
    simp [List.append_assoc]]
  rw [show (hdrBytes m ++ encQList m.questions).length +
      (encRRList m.answers).length =
      (hdrBytes m ++ encQList m.questions ++ encRRList m.answers).length from by
    simp only [List.length_append]
    try omega]
  rw [hdau]
  simp only [except_bind_ok]
  rw [show (hdrBytes m ++ encQList m.questions ++ encRRList m.answers) ++
      (encRRList m.authorities ++ encRRList m.additionals) =
      (hdrBytes m ++ encQList m.questions ++ encRRList m.answers ++
        encRRList m.authorities) ++ (encRRList m.additionals ++ []) from by
    simp [List.append_assoc]]
  rw [show (hdrBytes m ++ encQList m.questions ++ encRRList m.answers).length +
      (encRRList m.authorities).length =
      (hdrBytes m ++ encQList m.questions ++ encRRList m.answers ++
        encRRList m.authorities).length from by
    simp only [List.length_append]
    try omega]
  rw [hdad]
  simp only [except_bind_ok]
  rfl

/-! ## Inversion lemmas and further support -/

theorem unpkgHeader_ok_length (msg : List Nat) (hd : Header)
    (h : unpkgHeader msg = .ok hd) : 12 ≤ msg.length := by
  unfold unpkgHeader readUInt16BE at h
  by_cases h0 : 0 + 2 ≤ msg.length
  · rw [if_pos h0] at h
    simp only [except_bind_ok] at h
    by_cases h2 : 2 + 2 ≤ msg.length
    · rw [if_pos h2] at h
      simp only [except_bind_ok] at h
      by_cases h4 : 4 + 2 ≤ msg.length
      · rw [if_pos h4] at h
        simp only [except_bind_ok] at h
        by_cases h6 : 6 + 2 ≤ msg.length
        · rw [if_pos h6] at h
          simp only [except_bind_ok] at h
          by_cases h8 : 8 + 2 ≤ msg.length
          · rw [if_pos h8] at h
            simp only [except_bind_ok] at h
            by_cases h10 : 10 + 2 ≤ msg.length
            · omega
            · rw [if_neg h10] at h
              simp at h
          · rw [if_neg h8] at h
            simp at h
        · rw [if_neg h6] at h
          simp at h
      · rw [if_neg h4] at h
        simp at h
    · rw [if_neg h2] at h
      simp at h
  · rw [if_neg h0] at h
    simp at h

theorem jsSlice_length {α : Type} (l : List α) (a b : Nat) :
    (jsSlice l a b).length = min (b - a) (l.length - a) := by
  unfold jsSlice
  rw [List.length_take, List.length_drop]

/-- Shape of every successful unpkgRR result: the resource data is absent
exactly when the declared length is zero, and otherwise it is the verbatim
(clamped) slice of `rdl` declared bytes ending at the final cursor. -/
theorem unpkgRR_ok_shape (msg : List Nat) (off : Nat) (r : URR)
    (h : unpkgRR msg off = .ok r) :
    (r.rd = none ↔ r.rdl = 0) ∧
      (0 < r.rdl → r.rd = some (jsSlice msg (r.offset - r.rdl) r.offset) ∧
        (r.rd.getD []).length = min r.rdl (msg.length - (r.offset - r.rdl))) := by
  unfold unpkgRR at h
  cases h1 : readUInt8 msg off with
  | error e =>
    rw [h1] at h
    simp at h
  | ok first =>
    rw [h1] at h
    simp only [except_bind_ok] at h
    have hmain : ∀ nr : List (List Nat) × Nat,
        ((do
          let rrType ← readUInt16BE msg nr.2
          let rrClass ← readUInt16BE msg (nr.2 + 2)
          let ttl ← readUInt32BE msg (nr.2 + 4)
          let rdl ← readUInt16BE msg (nr.2 + 8)
          if 0 < rdl then
            if rrType = 1 ∧ (jsSlice msg (nr.2 + 10) (nr.2 + 10 + rdl)).length < 4
              then Except.error NodeError.outOfRange
            else Except.ok (⟨nr.1, rrType, rrClass, ttl, rdl,
              some (jsSlice msg (nr.2 + 10) (nr.2 + 10 + rdl)),
              nr.2 + 10 + rdl⟩ : URR)
          else Except.ok ⟨nr.1, rrType, rrClass, ttl, rdl, none, nr.2 + 10⟩) =
            .ok r) →
        (r.rd = none ↔ r.rdl = 0) ∧
          (0 < r.rdl → r.rd = some (jsSlice msg (r.offset - r.rdl) r.offset) ∧
            (r.rd.getD []).length =
              min r.rdl (msg.length - (r.offset - r.rdl))) := by
      intro nr hh
      cases hT : readUInt16BE msg nr.2 with
      | error e =>
        rw [hT] at hh
        simp at hh
      | ok rrType =>
        rw [hT] at hh
        simp only [except_bind_ok] at hh
        cases hC : readUInt16BE msg (nr.2 + 2) with
        | error e =>
          rw [hC] at hh
          simp at hh
        | ok rrClass =>
          rw [hC] at hh
          simp only [except_bind_ok] at hh
          cases hTtl : readUInt32BE msg (nr.2 + 4) with
          | error e =>
            rw [hTtl] at hh
            simp at hh
          | ok ttl =>
            rw [hTtl] at hh
            simp only [except_bind_ok] at hh
            cases hD : readUInt16BE msg (nr.2 + 8) with
            | error e =>
              rw [hD] at hh
              simp at hh
            | ok rdl =>
              rw [hD] at hh
              simp only [except_bind_ok] at hh
              by_cases hpos : 0 < rdl
              · rw [if_pos hpos] at hh
                by_cases hguard : rrType = 1 ∧
                    (jsSlice msg (nr.2 + 10) (nr.2 + 10 + rdl)).length < 4
                · rw [if_pos hguard] at hh
                  simp at hh
                · rw [if_neg hguard] at hh
                  have hr := Except.ok.inj hh
                  have e1 : r.rd = some (jsSlice msg (nr.2 + 10) (nr.2 + 10 + rdl)) := by
                    rw [← hr]
                  have e2 : r.rdl = rdl := by rw [← hr]
                  have e3 : r.offset = nr.2 + 10 + rdl := by rw [← hr]
                  rw [e1, e2, e3]
                  constructor
                  · constructor
                    · intro hx
                      exact Option.noConfusion hx
                    · intro hx
                      exact absurd hpos (by omega)
                  · intro _
                    constructor
                    · rw [show nr.2 + 10 + rdl - rdl = nr.2 + 10 from by omega]
                    · simp only [Option.getD_some]
                      rw [jsSlice_length]
                      rw [show nr.2 + 10 + rdl - (nr.2 + 10) = rdl from by omega,
                        show nr.2 + 10 + rdl - rdl = nr.2 + 10 from by omega]
              · rw [if_neg hpos] at hh
                have hr := Except.ok.inj hh
                have e1 : r.rd = none := by rw [← hr]
                have e2 : r.rdl = rdl := by rw [← hr]
                rw [e1, e2]
                constructor
                · constructor
                  · intro _
                    omega
                  · intro _
                    rfl
                · intro hx
                  exact absurd hx hpos
    by_cases hptr : first &&& 192 = 192
    · rw [if_pos hptr] at h
      cases h2 : readUInt16BE msg off with
      | error e =>
        rw [h2] at h
        simp at h
      | ok w =>
        rw [h2] at h
        simp only [except_bind_ok] at h
        exact hmain ((readLabels msg (w &&& 63)).1, off + 2) h
    · rw [if_neg hptr] at h
      try simp only [except_bind_ok] at h
      exact hmain (readLabels msg off) h

theorem splitOn_no_sep (l : List Nat) (h : ∀ b ∈ l, b ≠ 46) :
    l.splitOn 46 = [l] := by
  show l.splitOnP (· == 46) = [l]
  refine List.splitOnP_eq_single _ _ ?_
  intro x hx
  simp [h x hx]

theorem parseInt2_padded (fv : Nat) (h : fv < 65536) :
    parseInt2 (padStart 16 '0' (binDigits fv)) = some fv := by
  have hlen : (binDigits fv).length ≤ 16 :=
    binDigits_length_le fv 16 (by norm_num at h ⊢; omega) (by omega)
  have hdig : ∀ c ∈ padStart 16 '0' (binDigits fv), isBinDigit c := by
    intro c hc
    unfold padStart at hc
    rw [List.mem_append] at hc
    rcases hc with hc | hc
    · rw [(List.mem_replicate.mp hc).2]
      decide
    · exact binDigits_digits fv c hc
  unfold parseInt2
  rw [List.takeWhile_eq_self_iff.mpr hdig]
  rw [if_neg (by
    intro hemp
    have h16 : (padStart 16 '0' (binDigits fv)).length = 16 :=
      padStart_length 16 '0' _ hlen
    rw [List.isEmpty_iff.mp hemp] at h16
    simp at h16)]
  rw [parseBin_padStart, parseBin_binDigits]

theorem length_eq_twelve {α : Type} {l : List α} (h : l.length = 12) :
    ∃ a0 a1 a2 a3 a4 a5 a6 a7 a8 a9 a10 a11,
      l = [a0, a1, a2, a3, a4, a5, a6, a7, a8, a9, a10, a11] := by
  rcases l with _|⟨a0,_|⟨a1,_|⟨a2,_|⟨a3,_|⟨a4,_|⟨a5,_|⟨a6,_|⟨a7,_|⟨a8,_|⟨a9,
    _|⟨a10,_|⟨a11,_|⟨a12,t⟩⟩⟩⟩⟩⟩⟩⟩⟩⟩⟩⟩⟩ <;>
    first
    | exact ⟨a0, a1, a2, a3, a4, a5, a6, a7, a8, a9, a10, a11, rfl⟩
    | (simp at h; try omega)

theorem padStart16_digits (fv : Nat) :
    ∀ c ∈ padStart 16 '0' (binDigits fv), isBinDigit c := by
  intro c hc
  unfold padStart at hc
  rw [List.mem_append] at hc
  rcases hc with hc | hc
  · rw [(List.mem_replicate.mp hc).2]
    decide
  · exact binDigits_digits fv c hc

theorem headerFlagsOf_concat (fv : Nat) (h : fv < 65536) :
    (headerFlagsOf fv).qr ++ (headerFlagsOf fv).opcode ++
      (headerFlagsOf fv).aa ++ (headerFlagsOf fv).tc ++
      (headerFlagsOf fv).rd ++ (headerFlagsOf fv).ra ++
      (headerFlagsOf fv).zero ++ (headerFlagsOf fv).rcode =
      padStart 16 '0' (binDigits fv) := by
  have hlen : (padStart 16 '0' (binDigits fv)).length = 16 :=
    padStart_length 16 '0' _ (binDigits_length_le fv 16
      (by norm_num at h ⊢; omega) (by omega))
  simp only [headerFlagsOf]
  exact slices16_concat _ hlen

theorem headerFlagsOf_valid (fv : Nat) (h : fv < 65536) :
    ValidFlags (headerFlagsOf fv) := by
  have hlen : (padStart 16 '0' (binDigits fv)).length = 16 :=
    padStart_length 16 '0' _ (binDigits_length_le fv 16
      (by norm_num at h ⊢; omega) (by omega))
  constructor
  · simp only [headerFlagsOf]
    refine ⟨?_, ?_, ?_, ?_, ?_, ?_, ?_, ?_⟩ <;>
      (rw [jsSlice_length, hlen]; omega)
  · rw [headerFlagsOf_concat fv h]
    exact padStart16_digits fv

/-! ## The claims -/

/-- Claim C1 (corrected): the round trip holds for structurally valid
messages only under the extra hypothesis `ValidRRD` on every record: a
type-1 record must carry either no resource data or at least four bytes of
it, because the decoder's debug formatting evaluates `rd.readUInt8(0..3)`
even with logging disabled.  Under that amended validity, decoding the
encoding succeeds and reproduces the transaction id, the flag sub-fields,
the section counts, and every entry of every section in order (names
compared label-wise, resource data compared with the decoder's absent-when-
empty convention). -/
theorem c1_roundtrip_amended (m : EncMessage) (hv : ValidMessageAmended m) :
    ∃ bs dm, pkgdns m = .ok bs ∧ unpkgdns bs = .ok dm ∧
      dm.header.transactionId = m.transactionId ∧
      dm.header.flags = m.flags ∧
      dm.header.questionRRC = m.questions.length ∧
      dm.header.answerRRC = m.answers.length ∧
      dm.header.authorityRRC = m.authorities.length ∧
      dm.header.additionalRRC = m.additionals.length ∧
      List.Forall₂ QMatch dm.questions m.questions ∧
      List.Forall₂ RRMatch dm.answers m.answers ∧
      List.Forall₂ RRMatch dm.authorities m.authorities ∧
      List.Forall₂ RRMatch dm.additionals m.additionals := by
  obtain ⟨uqs, uas, uaus, uads, hdec, hmq, hma, hmau, hmad⟩ := unpkgdns_enc m hv
  exact ⟨_, _, pkgdns_eq m hv.1, hdec, rfl, rfl, rfl, rfl, rfl, rfl,
    hmq, hma, hmau, hmad⟩

theorem c1_roundtrip_amended_witness :
    ValidMessageAmended cexM0 ∧
      ∃ bs dm, pkgdns cexM0 = .ok bs ∧ unpkgdns bs = .ok dm ∧
        dm.header.transactionId = cexM0.transactionId ∧
        dm.header.flags = cexM0.flags ∧
        dm.header.questionRRC = cexM0.questions.length ∧
        dm.header.answerRRC = cexM0.answers.length ∧
        dm.header.authorityRRC = cexM0.authorities.length ∧
        dm.header.additionalRRC = cexM0.additionals.length ∧
        List.Forall₂ QMatch dm.questions cexM0.questions ∧
        List.Forall₂ RRMatch dm.answers cexM0.answers ∧
        List.Forall₂ RRMatch dm.authorities cexM0.authorities ∧
        List.Forall₂ RRMatch dm.additionals cexM0.additionals := by
  have hv : ValidMessageAmended cexM0 := by
    refine ⟨?_, ?_, ?_, ?_⟩
    · simp only [ValidMessage, ValidFlags, ValidQuestion, ValidRR, ValidName,
        ValidLabel]
      decide
    · simp only [ValidRRD, ValidRR, ValidName, ValidLabel]
      decide
    · simp only [ValidRRD, ValidRR, ValidName, ValidLabel]
      decide
    · simp only [ValidRRD, ValidRR, ValidName, ValidLabel]
      decide
  exact ⟨hv, c1_roundtrip_amended cexM0 hv⟩

theorem c1_counterexample :
    ValidMessage cexM1 ∧ pkgdns cexM1 = .ok cexBytes1 ∧
      unpkgdns cexBytes1 = .error NodeError.outOfRange := by
  refine ⟨?_, by decide, by decide⟩
  simp only [ValidMessage, ValidFlags, ValidQuestion, ValidRR, ValidName,
    ValidLabel]
  decide

/-- Claim C2 (code bug): the source masks the pointer word with 0b00111111
(six bits), not with fourteen bits as the spec states.  On cex2 the pointer
word at offset 12 is 0xc040, whose 14-bit offset is 64 and whose name at
offset 64 is the single label a; the decoder instead resumes at
0xc040 masked to six bits, which is offset 0, and returns the label b. -/
theorem c2_pointer_mask_bug :
    cex2.getD 12 0 &&& 192 = 192 ∧
      (cex2.getD 12 0 * 256 + cex2.getD 13 0) % 16384 = 64 ∧
      (cex2.getD 12 0 * 256 + cex2.getD 13 0) &&& 63 = 0 ∧
      (readLabels cex2 64).1 = [[97]] ∧
      ∃ r : URR, unpkgRR cex2 12 = .ok r ∧
        r.rrName = (readLabels cex2 0).1 ∧
        r.rrName ≠ (readLabels cex2 64).1 := by
  refine ⟨by decide, by decide, by decide, by decide,
    ⟨[[98]], 5, 1, 0, 0, none, 24⟩, by decide, by decide, by decide⟩

/-- Claim C3 (corrected): the decoder never rejects a forward or self
pointer - the source has no such check and no MalformedNameError exists in
it.  Decoding a record whose name starts with a compression pointer at
offset P always terminates, and whenever the fixed fields after the pointer
are in bounds (and the record is not type 1, so the debug formatting cannot
throw) it succeeds, resuming at the six-bit-masked pointer target, whether
or not that target is before P. -/
theorem c3_forward_pointer_amended (msg : List Nat) (P : Nat)
    (hlen : P + 12 ≤ msg.length)
    (hptr : msg.getD P 0 &&& 192 = 192)
    (hfwd : P ≤ (msg.getD P 0 * 256 + msg.getD (P + 1) 0) &&& 63)
    (htype : msg.getD (P + 2) 0 * 256 + msg.getD (P + 2 + 1) 0 ≠ 1) :
    ∃ r : URR, unpkgRR msg P = .ok r ∧
      r.rrName = (readLabels msg
        ((msg.getD P 0 * 256 + msg.getD (P + 1) 0) &&& 63)).1 := by
  have h8 : readUInt8 msg P = .ok (msg.getD P 0) := by
    unfold readUInt8
    rw [if_pos (by omega)]
  have h16a : readUInt16BE msg P =
      .ok (msg.getD P 0 * 256 + msg.getD (P + 1) 0) := by
    unfold readUInt16BE
    rw [if_pos (by omega)]
  have h16b : readUInt16BE msg (P + 2) =
      .ok (msg.getD (P + 2) 0 * 256 + msg.getD (P + 2 + 1) 0) := by
    unfold readUInt16BE
    rw [if_pos (by omega)]
  have h16c : readUInt16BE msg (P + 2 + 2) =
      .ok (msg.getD (P + 2 + 2) 0 * 256 + msg.getD (P + 2 + 2 + 1) 0) := by
    unfold readUInt16BE
    rw [if_pos (by omega)]
  have h32 : readUInt32BE msg (P + 2 + 4) =
      .ok (msg.getD (P + 2 + 4) 0 * 16777216 +
        msg.getD (P + 2 + 4 + 1) 0 * 65536 +
        msg.getD (P + 2 + 4 + 2) 0 * 256 + msg.getD (P + 2 + 4 + 3) 0) := by
    unfold readUInt32BE
    rw [if_pos (by omega)]
  have h16d : readUInt16BE msg (P + 2 + 8) =
      .ok (msg.getD (P + 2 + 8) 0 * 256 + msg.getD (P + 2 + 8 + 1) 0) := by
    unfold readUInt16BE
    rw [if_pos (by omega)]
  simp only [unpkgRR]
  rw [h8]
  simp only [except_bind_ok]
  rw [if_pos hptr, h16a]
  simp only [except_bind_ok]
  rw [h16b]
  simp only [except_bind_ok]
  rw [h16c]
  simp only [except_bind_ok]
  rw [h32]
  simp only [except_bind_ok]
  rw [h16d]
  simp only [except_bind_ok]
  by_cases hpos : 0 < msg.getD (P + 2 + 8) 0 * 256 + msg.getD (P + 2 + 8 + 1) 0
  · rw [if_pos hpos]
    rw [if_neg (by
      rintro ⟨h1, h2⟩
      exact htype h1)]
    exact ⟨_, rfl, rfl⟩
  · rw [if_neg hpos]
    exact ⟨_, rfl, rfl⟩

theorem c3_forward_pointer_amended_witness :
    (12 + 12 ≤ cex3.length ∧ cex3.getD 12 0 &&& 192 = 192 ∧
      12 ≤ (cex3.getD 12 0 * 256 + cex3.getD (12 + 1) 0) &&& 63 ∧
      cex3.getD (12 + 2) 0 * 256 + cex3.getD (12 + 2 + 1) 0 ≠ 1) ∧
      ∃ r : URR, unpkgRR cex3 12 = .ok r ∧
        r.rrName = (readLabels cex3
          ((cex3.getD 12 0 * 256 + cex3.getD (12 + 1) 0) &&& 63)).1 :=
  ⟨⟨by decide, by decide, by decide, by decide⟩,
    c3_forward_pointer_amended cex3 12 (by decide) (by decide) (by decide)
      (by decide)⟩

theorem c3_counterexample :
    cex3.getD 12 0 &&& 192 = 192 ∧
      (cex3.getD 12 0 * 256 + cex3.getD 13 0) &&& 63 = 12 ∧
      unpkgRR cex3 12 =
        .ok ⟨[[12, 0, 5, 0, 1, 0, 0, 0, 0, 0, 0]], 5, 1, 0, 0, none, 24⟩ := by
  refine ⟨by decide, by decide, by decide⟩

/-- Claim C4 (corrected): decoding every proper prefix of the spec's sample
message fails with Node's ERR_OUT_OF_RANGE error, the code's only failure
kind, which stands in for the spec's TruncatedMessageError.  The spec's
further assertion - that a prefix can only succeed when it is a complete
sub-message - is refuted separately: a prefix that cuts into resource data
decodes successfully with silently clamped rdata. -/
theorem c4_prefix_amended :
    ∀ k, k < 101 → unpkgdns (specMsg.take k) = .error NodeError.outOfRange := by
  decide

theorem c4_prefix_amended_witness :
    50 < 101 ∧ unpkgdns (specMsg.take 50) = .error NodeError.outOfRange :=
  ⟨by decide, c4_prefix_amended 50 (by decide)⟩

theorem c4_counterexample :
    (unpkgdns cexMsg4).toOption.isSome = true ∧
      (unpkgdns (cexMsg4.take 27)).toOption.map
        (fun m => m.answers.map (fun r => (r.rdl, r.rd))) =
        some [(4, some [1, 2])] := by
  refine ⟨by decide, by decide⟩

/-- Claim C5 (confirmed): decoding the spec's sample bytes yields
transaction id 0x15a9 = 5545, one question, three answers, the question
name www.baidu.com, and - via the compression pointer c00c back to offset
12 - the first answer's name is also www.baidu.com. -/
theorem c5_scenario :
    (unpkgdns specMsg).toOption.map (fun m =>
      (m.header.transactionId, m.header.questionRRC, m.header.answerRRC,
        m.questions.map (fun q => q.name),
        m.answers.head?.map (fun r => List.intercalate [46] r.rrName))) =
      some (5545, 1, 3, [wwwbaidu], some wwwbaidu) := rfl

/-- Claim C6 (corrected): a 63-byte label round-trips, but the source has
no label-length validation at all: a 64-byte label also encodes without
error (no EncodingError exists in the code), and a length byte of 64..191
is consumed by the decoder as a literal (clamped) label length rather than
failing (no MalformedNameError exists in the code). -/
theorem c6_label_length_amended :
    (∀ lab : List Nat, lab.length = 63 → (∀ b ∈ lab, b < 128) →
      (∀ b ∈ lab, b ≠ 46) →
      pkgQuestion lab 1 1 = .ok (encQ ⟨lab, 1, 1⟩) ∧
      unpkgQuestion (encQ ⟨lab, 1, 1⟩) 0 =
        .ok ⟨[lab], 1, 1, 0, (encQ ⟨lab, 1, 1⟩).length, lab⟩) ∧
    (∀ lab : List Nat, lab.length = 64 → (∀ b ∈ lab, b < 128) →
      (∀ b ∈ lab, b ≠ 46) →
      pkgQuestion lab 1 1 = .ok (encQ ⟨lab, 1, 1⟩)) ∧
    (∀ (msg : List Nat) (off : Nat), off < msg.length →
      64 ≤ msg.getD off 0 → msg.getD off 0 ≤ 191 →
      (readLabels msg off).1 =
        (jsSlice msg (off + 1) (off + 1 + msg.getD off 0)).map
          (fun b => b % 128) :: (readLabels msg (off + 1 + msg.getD off 0)).1) := by
  refine ⟨?_, ?_, ?_⟩
  · intro lab hlen hb hno
    have hsp := splitOn_no_sep lab hno
    constructor
    · have h := pkgQuestion_eq lab 1 1
        (by
          rw [hsp]
          intro l hl
          rw [List.mem_singleton] at hl
          subst hl
          exact ⟨by omega, hb⟩)
        (by norm_num) (by norm_num)
      rw [h]
      simp [encQ, hsp]
    · have h := unpkgQuestion_append ⟨lab, 1, 1⟩ [] []
        (by
          intro l hl
          have hl2 : l = lab := by simpa [hsp] using hl
          subst hl2
          exact ⟨by omega, hb⟩)
        (by norm_num) (by norm_num)
      simp only [List.nil_append, List.append_nil, List.length_nil,
        Nat.zero_add] at h
      rw [h]
      simp [hsp]
  · intro lab hlen hb hno
    have hsp := splitOn_no_sep lab hno
    have h := pkgQuestion_eq lab 1 1
      (by
        rw [hsp]
        intro l hl
        rw [List.mem_singleton] at hl
        subst hl
        exact ⟨by omega, hb⟩)
      (by norm_num) (by norm_num)
    rw [h]
    simp [encQ, hsp]
  · intro msg off hoff h64 h191
    rw [readLabels_eq, if_pos hoff, if_neg (by omega)]

theorem c6_label_length_amended_witness :
    (lab63.length = 63 ∧ (∀ b ∈ lab63, b < 128) ∧ (∀ b ∈ lab63, b ≠ 46) ∧
      pkgQuestion lab63 1 1 = .ok (encQ ⟨lab63, 1, 1⟩) ∧
      unpkgQuestion (encQ ⟨lab63, 1, 1⟩) 0 =
        .ok ⟨[lab63], 1, 1, 0, (encQ ⟨lab63, 1, 1⟩).length, lab63⟩) ∧
    (lab64.length = 64 ∧ pkgQuestion lab64 1 1 = .ok (encQ ⟨lab64, 1, 1⟩)) ∧
    (readLabels [100, 97] 0).1 =
      (jsSlice [100, 97] (0 + 1) (0 + 1 + ([100, 97] : List Nat).getD 0 0)).map
        (fun b => b % 128) ::
        (readLabels [100, 97] (0 + 1 + ([100, 97] : List Nat).getD 0 0)).1 := by
  refine ⟨⟨by decide, by decide, by decide, ?_, ?_⟩, ⟨by decide, ?_⟩, ?_⟩
  · exact (c6_label_length_amended.1 lab63 (by decide) (by decide) (by decide)).1
  · exact (c6_label_length_amended.1 lab63 (by decide) (by decide) (by decide)).2
  · exact c6_label_length_amended.2.1 lab64 (by decide) (by decide) (by decide)
  · exact c6_label_length_amended.2.2 [100, 97] 0 (by decide) (by decide)
      (by decide)

theorem c6_counterexample :
    pkgQuestion lab64 1 1 = .ok (64 :: lab64 ++ [0, 0, 1, 0, 1]) := by
  decide

/-- Claim C7 (corrected): when the declared rdlength exceeds the bytes
remaining after the fixed fields, the decoder does not fail - Buffer.slice
clamps - and returns the remaining bytes only; when rdlength fits, the
resource data is exactly rdlength verbatim bytes.  Both cases are the
min in the conclusion: the successful record's data is the verbatim slice
of rdlength declared bytes ending at the final cursor, its actual length
the min of rdlength and the bytes available. -/
theorem c7_rdata_amended (msg : List Nat) (off : Nat) (r : URR)
    (h : unpkgRR msg off = .ok r) (hpos : 0 < r.rdl) :
    r.rd = some (jsSlice msg (r.offset - r.rdl) r.offset) ∧
      (r.rd.getD []).length = min r.rdl (msg.length - (r.offset - r.rdl)) :=
  (unpkgRR_ok_shape msg off r h).2 hpos

theorem c7_rdata_amended_witness :
    unpkgRR cex7 0 = .ok ⟨[[97]], 5, 1, 0, 5, some [9, 9], 18⟩ ∧
      (0 : Nat) < 5 ∧
      (some [9, 9] = some (jsSlice cex7 (18 - 5) 18) ∧
        ([9, 9] : List Nat).length = min 5 (cex7.length - (18 - 5))) :=
  ⟨by decide, by decide,
    c7_rdata_amended cex7 0 ⟨[[97]], 5, 1, 0, 5, some [9, 9], 18⟩
      (by decide) (by decide)⟩

theorem c7_counterexample :
    unpkgRR cex7 0 = .ok ⟨[[97]], 5, 1, 0, 5, some [9, 9], 18⟩ := by
  decide

/-- Claim C8 (confirmed): unpkgdns hands unpkgHeader the first twelve bytes
(a clamping slice); on a buffer of fewer than twelve bytes every header
read of the missing bytes throws Node's ERR_OUT_OF_RANGE (the code's only
failure kind, standing for the spec's TruncatedMessageError), and on a
buffer of at least twelve bytes the header decode always succeeds, with no
further validation. -/
theorem c8_header_truncation (b : List Nat) :
    (b.length < 12 → unpkgHeader (jsSlice b 0 12) = .error NodeError.outOfRange) ∧
      (12 ≤ b.length → ∃ hd, unpkgHeader (jsSlice b 0 12) = .ok hd) := by
  constructor
  · intro hlt
    have hsl : jsSlice b 0 12 = b := by
      unfold jsSlice
      rw [List.drop_zero]
      exact List.take_of_length_le (by omega)
    rw [hsl]
    cases hres : unpkgHeader b with
    | ok hd => exact absurd (unpkgHeader_ok_length b hd hres) (by omega)
    | error e =>
      cases e
      rfl
  · intro hge
    have hlen : (jsSlice b 0 12).length = 12 := by
      rw [jsSlice_length]
      omega
    exact ⟨_, unpkgHeader_ok _ (by omega)⟩

theorem c8_header_truncation_witness :
    (([1, 2, 3] : List Nat).length < 12 ∧
      unpkgHeader (jsSlice [1, 2, 3] 0 12) = .error NodeError.outOfRange) ∧
      (12 ≤ specMsg.length ∧ ∃ hd, unpkgHeader (jsSlice specMsg 0 12) = .ok hd) :=
  ⟨⟨by decide, (c8_header_truncation [1, 2, 3]).1 (by decide)⟩,
    ⟨by decide, (c8_header_truncation specMsg).2 (by decide)⟩⟩

/-- Claim C9 (confirmed): for every twelve-byte buffer of byte values,
re-encoding the decoded header reproduces the buffer exactly - the flag
sub-fields are fixed-width slices of the sixteen-bit binary string of the
flags word, and pkgHeader parses their concatenation back in base two. -/
theorem c9_header_roundtrip (b : List Nat) (hlen : b.length = 12)
    (hbytes : ∀ x ∈ b, x < 256) :
    ∃ hd : Header, unpkgHeader b = .ok hd ∧
      pkgHeader hd.transactionId hd.flags hd.questionRRC hd.answerRRC
        hd.authorityRRC hd.additionalRRC = .ok b := by
  obtain ⟨b0, b1, b2, b3, b4, b5, b6, b7, b8, b9, b10, b11, rfl⟩ :=
    length_eq_twelve hlen
  have hb0 : b0 < 256 := hbytes b0 (by simp)
  have hb1 : b1 < 256 := hbytes b1 (by simp)
  have hb2 : b2 < 256 := hbytes b2 (by simp)
  have hb3 : b3 < 256 := hbytes b3 (by simp)
  have hb4 : b4 < 256 := hbytes b4 (by simp)
  have hb5 : b5 < 256 := hbytes b5 (by simp)
  have hb6 : b6 < 256 := hbytes b6 (by simp)
  have hb7 : b7 < 256 := hbytes b7 (by simp)
  have hb8 : b8 < 256 := hbytes b8 (by simp)
  have hb9 : b9 < 256 := hbytes b9 (by simp)
  have hb10 : b10 < 256 := hbytes b10 (by simp)
  have hb11 : b11 < 256 := hbytes b11 (by simp)
  have hdec := unpkgHeader_ok [b0, b1, b2, b3, b4, b5, b6, b7, b8, b9, b10, b11]
    (by simp)
  simp only [List.getD_cons_succ, List.getD_cons_zero] at hdec
  refine ⟨_, hdec, ?_⟩
  show pkgHeader (b0 * 256 + b1) (headerFlagsOf (b2 * 256 + b3)) (b4 * 256 + b5)
    (b6 * 256 + b7) (b8 * 256 + b9) (b10 * 256 + b11) =
    .ok [b0, b1, b2, b3, b4, b5, b6, b7, b8, b9, b10, b11]
  have hfv : b2 * 256 + b3 < 65536 := by omega
  rw [pkgHeader_eq (b0 * 256 + b1) (headerFlagsOf (b2 * 256 + b3))
    (b4 * 256 + b5) (b6 * 256 + b7) (b8 * 256 + b9) (b10 * 256 + b11)
    (by omega) (headerFlagsOf_valid _ hfv) (by omega) (by omega) (by omega)
    (by omega)]
  rw [headerFlagsOf_concat _ hfv, parseBin_padStart, parseBin_binDigits]
  have ed0 : (b0 * 256 + b1) / 256 = b0 := by omega
  have em0 : (b0 * 256 + b1) % 256 = b1 := by omega
  have ed1 : (b2 * 256 + b3) / 256 = b2 := by omega
  have em1 : (b2 * 256 + b3) % 256 = b3 := by omega
  have ed2 : (b4 * 256 + b5) / 256 = b4 := by omega
  have em2 : (b4 * 256 + b5) % 256 = b5 := by omega
  have ed3 : (b6 * 256 + b7) / 256 = b6 := by omega
  have em3 : (b6 * 256 + b7) % 256 = b7 := by omega
  have ed4 : (b8 * 256 + b9) / 256 = b8 := by omega
  have em4 : (b8 * 256 + b9) % 256 = b9 := by omega
  have ed5 : (b10 * 256 + b11) / 256 = b10 := by omega
  have em5 : (b10 * 256 + b11) % 256 = b11 := by omega
  simp only [u16Bytes, ed0, em0, ed1, em1, ed2, em2, ed3, em3, ed4, em4,
    ed5, em5, List.cons_append, List.nil_append]

theorem c9_header_roundtrip_witness :
    (hdr12.length = 12 ∧ ∀ x ∈ hdr12, x < 256) ∧
      ∃ hd : Header, unpkgHeader hdr12 = .ok hd ∧
        pkgHeader hd.transactionId hd.flags hd.questionRRC hd.answerRRC
          hd.authorityRRC hd.additionalRRC = .ok hdr12 :=
  ⟨⟨by decide, by decide⟩, c9_header_roundtrip hdr12 (by decide) (by decide)⟩

/-- Claim C10 (confirmed): a successfully decoded record carries no
resource-data field exactly when the declared rdlength is zero; a strictly
positive rdlength always comes with a byte-sequence rdata. -/
theorem c10_rdata_absent (msg : List Nat) (off : Nat) (r : URR)
    (h : unpkgRR msg off = .ok r) : r.rd = none ↔ r.rdl = 0 :=
  (unpkgRR_ok_shape msg off r h).1

theorem c10_rdata_absent_witness :
    unpkgRR cex3 12 =
      .ok ⟨[[12, 0, 5, 0, 1, 0, 0, 0, 0, 0, 0]], 5, 1, 0, 0, none, 24⟩ ∧
      ((none : Option (List Nat)) = none ↔ (0 : Nat) = 0) :=
  ⟨by decide,
    c10_rdata_absent cex3 12 ⟨[[12, 0, 5, 0, 1, 0, 0, 0, 0, 0, 0]], 5, 1, 0, 0,
      none, 24⟩ (by decide)⟩
